import Mathlib

/-!
Verification of the report-generator layout engine (`create_form.py`).

The Python source is shallowly embedded: every pure helper becomes a Lean
function with the same structure, stateful pieces (the image cache, the
set of files on disk, the network) become explicit state passing with an
oracle for the network.  Strings are modelled by Lean `String`
(`List Char` underneath); Python `None`-able strings by `Option String`.
-/

namespace Report

/-- Python truthiness of an optional string: `None` and `""` are falsy. -/
def strTruthy : Option String → Bool
  | none => false
  | some s => s ≠ ""

/-- `leadsWith p l` : the character list `p` is an initial segment of `l`. -/
def leadsWith : List Char → List Char → Bool
  | [], _ => true
  | _ :: _, [] => false
  | p :: ps, c :: cs => p = c && leadsWith ps cs

/-- `hasSub pat l` : `pat` occurs contiguously somewhere inside `l`. -/
def hasSub (pat l : List Char) : Prop := ∃ pre post, l = pre ++ pat ++ post

/-- Python `sep.join(parts)` for strings. -/
def strJoin (sep : String) : List String → String
  | [] => ""
  | [x] => x
  | x :: xs => x ++ sep ++ strJoin sep xs

/-! ## Data model (§3 of the spec, the JSON shapes read by `create_form.py`) -/

structure Photo where
  url : Option String
  caption : String
deriving Repr, DecidableEq

structure Comment where
  label : String
  value : Option String
  photos : List Photo
deriving Repr, DecidableEq

structure LineItem where
  title : String
  inspectionStatus : Option String
  isDeficient : Bool
  comments : List Comment
deriving Repr, DecidableEq

structure MediaItem where
  url : Option String
deriving Repr, DecidableEq

structure Sec where
  name : String
  lineItems : List LineItem
  media : List MediaItem
deriving Repr, DecidableEq

/-- The part of the inspection JSON consumed by the body generator and the
URL collector: `data["inspection"]["sections"]`. -/
structure InspectionData where
  sections : List Sec
deriving Repr, DecidableEq

/-! ## `to_roman` (create_form.py lines 26-37)

The Python loop walks the value/symbol tables in parallel; for each value
`v` it appends the symbol `n / v` times and continues with `n % v`
(`n -= val[i]` executed `n // val[i]` times). -/

def romanTable : List (Nat × String) :=
  [(1000, "M"), (900, "CM"), (500, "D"), (400, "CD"), (100, "C"), (90, "XC"),
   (50, "L"), (40, "XL"), (10, "X"), (9, "IX"), (5, "V"), (4, "IV"), (1, "I")]

def repeatStr (s : String) : Nat → String
  | 0 => ""
  | n + 1 => s ++ repeatStr s n

def toRomanAux : List (Nat × String) → Nat → String
  | [], _ => ""
  | (v, s) :: rest, n => repeatStr s (n / v) ++ toRomanAux rest (n % v)

def toRoman (n : Nat) : String := toRomanAux romanTable n

/-! ## `escape_latex` (create_form.py lines 40-54)

Ten sequential single-character `str.replace` passes, in source order.
`replChar` is Python `str.replace` for a one-character needle. -/

def replChar (c : Char) (r : List Char) : List Char → List Char
  | [] => []
  | a :: rest => (if a = c then r else [a]) ++ replChar c r rest

/-- The replacement table, in the exact order of the Python function.
Literal braces inside the replacement strings are written with their
`\x7b` / `\x7d` character codes. -/
def escSteps : List (Char × String) :=
  [('\\', "\\textbackslash\x7b\x7d"),
   ('_', "\\_"),
   ('%', "\\%"),
   ('&', "\\&"),
   ('#', "\\#"),
   ('$', "\\$"),
   ('\x7b', "\\\x7b"),
   ('\x7d', "\\\x7d"),
   ('^', "\\^\x7b\x7d"),
   ('~', "\\~\x7b\x7d")]

def applySteps : List (Char × String) → List Char → List Char
  | [], s => s
  | (c, r) :: rest, s => applySteps rest (replChar c r.data s)

def escapeLatexChars (s : List Char) : List Char := applySteps escSteps s

/-- `escape_latex` on strings (non-string inputs, mapped to `""` by the
Python guard, are outside the `String` domain of this embedding). -/
def escapeLatex (s : String) : String := ⟨escapeLatexChars s.data⟩

/-! ## `get_checkboxes` (create_form.py lines 57-73) -/

def squareBox : String := "$\\square$"
def timesBox : String := "$\\boxtimes$"

/-- The four box glyphs (I, NI, NP, D) produced by the `if/elif` chain. -/
def getCheckboxBoxes (status : Option String) (isDeficient : Bool) :
    String × String × String × String :=
  if isDeficient then (squareBox, squareBox, squareBox, timesBox)
  else if status = some "I" then (timesBox, squareBox, squareBox, squareBox)
  else if status = some "NI" then (squareBox, timesBox, squareBox, squareBox)
  else if status = some "NP" then (squareBox, squareBox, timesBox, squareBox)
  else (squareBox, squareBox, squareBox, squareBox)

def getCheckboxes (status : Option String) (isDeficient : Bool) : String :=
  let b := getCheckboxBoxes status isDeficient
  b.1 ++ " & " ++ b.2.1 ++ " & " ++ b.2.2.1 ++ " & " ++ b.2.2.2

/-- How many of the four boxes are checked (show the `boxtimes` glyph). -/
def checkedCount (status : Option String) (isDeficient : Bool) : Nat :=
  let b := getCheckboxBoxes status isDeficient
  [b.1, b.2.1, b.2.2.1, b.2.2.2].countP (· = timesBox)

/-! ## The image cache (create_form.py lines 76-158)

`IMAGE_CACHE` is a dict from URL to `Optional[str]` (a local file path on
success, `None` on failure).  It is modelled as an association list with
newest-binding-first lookup. -/

abbrev Cache := List (String × Option String)

/-- Python `IMAGE_CACHE[url] = v` (dict assignment). -/
def cacheInsert (c : Cache) (u : String) (v : Option String) : Cache := (u, v) :: c

/-- Python `url in IMAGE_CACHE` / `IMAGE_CACHE.get(url)` distinguishing a
missing key (`none`) from a stored value (`some v`). -/
def cacheGet : Cache → String → Option (Option String)
  | [], _ => none
  | (k, v) :: rest, u => if k = u then some v else cacheGet rest u

/-- `get_cached_image` (create_form.py line 156): `IMAGE_CACHE.get(url)`
returns `None` both for a missing key and for a stored failure. -/
def getCachedImage (c : Cache) (u : String) : Option String :=
  match cacheGet c u with
  | some v => v
  | none => none

/-! ## The section loop of `generate_latex_body` (create_form.py 477-619)

The body list is modelled fragment by fragment: each `body.append(...)`
becomes one element of a `List String`.  Literal braces in the LaTeX
strings are written `\x7b` / `\x7d`. -/

/-- `os.path.basename` for POSIX paths. -/
def osBasename (p : String) : String := (p.splitOn "/").getLastD ""

/-- One entry of `valid_image_data`: resolved relative path plus caption. -/
structure ImgData where
  path : String
  caption : String
deriving Repr, DecidableEq

/-- The `valid_image_data` accumulation (create_form.py lines 531-549):
keep a photo only when its `url` is truthy and resolves in the cache;
the kept path is `os.path.join("images", basename).replace("\\", "/")`. -/
def validImageData (cache : Cache) (photos : List Photo) : List ImgData :=
  photos.filterMap fun p =>
    match p.url with
    | none => none
    | some u =>
      if u = "" then none
      else
        match getCachedImage cache u with
        | some path => some ⟨"images/" ++ osBasename path, p.caption⟩
        | none => none

/-- The width/height tier chosen from `len(valid_image_data)`
(create_form.py lines 555-566). -/
def imageSize (n : Nat) : String × String :=
  if n = 1 then ("3.0in", "2.5in")
  else if n = 2 then ("1.8in", "2.0in")
  else if n = 3 then ("1.3in", "1.8in")
  else ("1.0in", "1.5in")

def indent32 : String := "                                "

/-- `img_with_caption` (create_form.py lines 575-592). -/
def imgWithCaption (w h : String) (d : ImgData) : String :=
  let base :=
    "\\begin\x7bminipage\x7d[t]\x7b" ++ w ++ "\x7d" ++ "\n"
      ++ indent32 ++ "\\centering" ++ "\n"
      ++ indent32 ++ "\\includegraphics[width=" ++ w
      ++ ", height=" ++ h
      ++ ", keepaspectratio]\x7b" ++ d.path ++ "\x7d"
  let withCap :=
    if d.caption ≠ "" then
      base ++ "\n" ++ indent32 ++ "\\vspace\x7b0.1cm\x7d \\\\" ++ "\n"
        ++ indent32 ++ "\x7b\\small\\itshape " ++ escapeLatex d.caption ++ "\x7d"
    else base
  withCap ++ "\n" ++ indent32 ++ "\\end\x7bminipage\x7d"

/-- The image-block table row (create_form.py lines 569-602): all images
joined with `\hspace{0.2cm}` inside one `\parbox` cell. -/
def imageRow (valid : List ImgData) : String :=
  let ws := imageSize valid.length
  let parts := valid.map (imgWithCaption ws.1 ws.2)
  "& & & & \\parbox\x7b\\linewidth\x7d\x7b\\centering "
    ++ strJoin " \\hspace\x7b0.2cm\x7d " parts
    ++ "\x7d \\\\[0.3em]"

/-- The fragments appended for one comment in Scenario 4
(create_form.py lines 524-611): the checkbox + numbered-label row, then
the image row when at least one photo resolved, then the value row when
the comment has a truthy `value`. -/
def commentRows (cache : Cache) (checkboxStr : String) (k : Nat) (c : Comment) :
    List String :=
  let labelRow :=
    checkboxStr ++ " & "
      ++ ("\\textbf\x7b" ++ escapeLatex (toString k ++ ". " ++ c.label) ++ "\x7d")
      ++ " \\\\"
  let imgRows :=
    if c.photos = [] then []
    else
      let valid := validImageData cache c.photos
      if valid = [] then [] else [imageRow valid]
  let valueRows :=
    match c.value with
    | some v => if v ≠ "" then
        ["\\multicolumn\x7b4\x7d\x7bc\x7d\x7b\x7d & " ++ escapeLatex v ++ " \\\\[0.5em]"]
      else []
    | none => []
  labelRow :: imgRows ++ valueRows

/-- `enumerate(comments, start=1)` threaded through `commentRows`. -/
def commentsRows (cache : Cache) (cb : String) : Nat → List Comment → List String
  | _, [] => []
  | k, c :: rest => commentRows cache cb k c ++ commentsRows cache cb (k + 1) rest

def ltHeaderRow : String :=
  "\\textbf\x7bI\x7d & \\textbf\x7bNI\x7d & \\textbf\x7bNP\x7d & \\textbf\x7bD\x7d & \\textbf\x7bComments\x7d \\\\ \\hline \\endhead"

def commentCol : String := "p\x7b0.65\\textwidth\x7d"

/-- The four-way branch on (has comments?, has status?) for one line item
(create_form.py lines 490-613), as the list of appended fragments. -/
def lineItemFragments (cache : Cache) (item : LineItem) : List String :=
  let cb := getCheckboxes item.inspectionStatus item.isDeficient
  if item.comments = [] ∧ item.inspectionStatus ≠ none then
    ["\\begin\x7blongtable\x7d\x7bc c c c p\x7b0.65\\textwidth\x7d\x7d",
     ltHeaderRow,
     cb ++ " & No comment \\\\",
     "\\end\x7blongtable\x7d" ++ "\n"]
  else if item.comments ≠ [] ∧ item.inspectionStatus = none then
    (item.comments.filterMap fun c =>
      match c.value with
      | some v => if v ≠ "" then some (escapeLatex v ++ "\\\\" ++ "\n") else none
      | none => none)
      ++ ["\\vspace\x7b1em\x7d" ++ "\n"]
  else if item.comments = [] ∧ item.inspectionStatus = none then
    ["No comment" ++ "\\\\" ++ "\n", "\\vspace\x7b1em\x7d" ++ "\n"]
  else if item.comments ≠ [] then
    ("\\begin\x7blongtable\x7d\x7bc c c c " ++ commentCol ++ "\x7d")
      :: ltHeaderRow
      :: commentsRows cache cb 1 item.comments
      ++ ["\\end\x7blongtable\x7d" ++ "\n"]
  else []

/-- `\subsection*{<Letter>. <Title>}` heading (create_form.py line 488),
`item_letter = chr(ord("A") + j)`. -/
def itemHeading (j : Nat) (item : LineItem) : String :=
  "\\subsection*\x7b" ++ String.singleton (Char.ofNat ('A'.toNat + j)) ++ ". "
    ++ escapeLatex item.title ++ "\x7d\n"

/-- Everything appended for one line item: heading, branch body, and the
trailing `\vspace{1em}` (create_form.py line 615). -/
def lineItemBlock (cache : Cache) (j : Nat) (item : LineItem) : List String :=
  itemHeading j item :: lineItemFragments cache item ++ ["\\vspace\x7b1em\x7d"]

def lineItemsBlocks (cache : Cache) : Nat → List LineItem → List String
  | _, [] => []
  | j, it :: rest => lineItemBlock cache j it ++ lineItemsBlocks cache (j + 1) rest

/-- `\section*{\centering <Roman>. <NAME>}` heading (create_form.py
lines 478-481): 1-based Roman numeral, name upper-cased then escaped. -/
def sectionHeading (i : Nat) (s : Sec) : String :=
  "\\section*\x7b\\centering " ++ toRoman i ++ ". " ++ escapeLatex s.name.toUpper
    ++ "\x7d\n"

/-- Everything appended for one section: heading, items (lettered from 0),
trailing `\clearpage` (create_form.py line 617). -/
def sectionBlock (cache : Cache) (i : Nat) (s : Sec) : List String :=
  sectionHeading i s :: lineItemsBlocks cache 0 s.lineItems ++ ["\\clearpage"]

def sectionsBlocks (cache : Cache) : Nat → List Sec → List String
  | _, [] => []
  | i, s :: rest => sectionBlock cache i s ++ sectionsBlocks cache (i + 1) rest

/-- The section loop of `generate_latex_body` (create_form.py lines
477-619): `enumerate(sections, start=1)`. -/
def sectionsLatexBody (cache : Cache) (data : InspectionData) : List String :=
  sectionsBlocks cache 1 data.sections

/-! ## URL collection (`collect_all_image_urls`, create_form.py 625-649)

The Python function accumulates a `set` across section media and photo
urls, keeping a url only when it is truthy and starts with `http://` or
`https://`, then returns `list(urls)`.  The set is modelled as a
deduplicated list; the claims about it are order-independent. -/

/-- The guard `if url and url.startswith(("http://", "https://"))`. -/
def okUrl : Option String → Option String
  | none => none
  | some u =>
    if (u != "") && (leadsWith "http://".data u.data || leadsWith "https://".data u.data)
    then some u else none

/-- Every url the traversal offers to the set, in traversal order, with
duplicates: section media first, then lineItems → comments → photos. -/
def candidateUrls (data : InspectionData) : List String :=
  data.sections.flatMap fun s =>
    (s.media.filterMap fun m => okUrl m.url)
      ++ s.lineItems.flatMap fun it =>
          it.comments.flatMap fun c =>
            c.photos.filterMap fun p => okUrl p.url

/-- Set-accumulation: keep each url once. -/
def dedupUrls : List String → List String
  | [] => []
  | u :: rest =>
    let d := dedupUrls rest
    if u ∈ d then d else u :: d

def collectAllImageUrls (data : InspectionData) : List String :=
  dedupUrls (candidateUrls data)

/-! ## The fetch stage (create_form.py 81-153 and 652-671)

`download_image_async` is modelled with two oracles: the filesystem (the
list of file paths that exist) and the network (`fetch`), which says for
each url whether the GET succeeded, failed decoding (raw bytes are still
written), returned a non-200 status, timed out, or raised.  The
`asyncio.gather` fan-in over `download_and_cache_image` tasks is modelled
as a fold: each task writes exactly one cache key under the lock. -/

inductive FetchOutcome where
  | ok
  | decodeFail
  | httpError (code : Nat)
  | timeout
  | netError
deriving Repr, DecidableEq

def IMAGE_DIR : String := "latex/images"

/-- `filepath = os.path.join(IMAGE_DIR, md5(url) + ".jpg")`; the md5 call
is abstracted into the `hash` parameter. -/
def hashedFilepath (hash : String → String) (url : String) : String :=
  IMAGE_DIR ++ "/" ++ hash url ++ ".jpg"

/-- `download_image_async`: returns (result, network call made?, files
afterwards).  A cached file short-circuits before any network use; `ok`
and `decodeFail` both write the file and return its path; non-200,
timeout and errors return `None` without writing. -/
def downloadImageAsync (hash : String → String) (fetch : String → FetchOutcome)
    (files : List String) (url : String) :
    Option String × Bool × List String :=
  let filepath := hashedFilepath hash url
  if filepath ∈ files then (some filepath, false, files)
  else
    match fetch url with
    | .ok => (some filepath, true, filepath :: files)
    | .decodeFail => (some filepath, true, filepath :: files)
    | .httpError _ => (none, true, files)
    | .timeout => (none, true, files)
    | .netError => (none, true, files)

/-- `download_and_cache_image`: run the download, then
`IMAGE_CACHE[url] = filepath` under the lock. -/
def downloadAndCacheImage (hash : String → String) (fetch : String → FetchOutcome)
    (st : Cache × List String) (url : String) : Cache × List String :=
  let r := downloadImageAsync hash fetch st.2 url
  (cacheInsert st.1 url r.1, r.2.2)

/-- `download_images_background`: the fan-out/fan-in join over one task
per url (`asyncio.gather(*tasks, return_exceptions=True)`). -/
def downloadImagesBackground (hash : String → String) (fetch : String → FetchOutcome) :
    List String → Cache × List String → Cache × List String
  | [], st => st
  | u :: rest, st =>
    downloadImagesBackground hash fetch rest (downloadAndCacheImage hash fetch st u)

/-- The urls for which a run of the fetch stage performs a network call. -/
def networkCalledUrls (hash : String → String) (fetch : String → FetchOutcome) :
    List String → List String → List String
  | [], _ => []
  | u :: rest, files =>
    let r := downloadImageAsync hash fetch files u
    (if r.2.1 then [u] else []) ++ networkCalledUrls hash fetch rest r.2.2

/-! ## The compile driver tail of `generate_pdf_from_json`
(create_form.py 899-937) -/

/-- The two `subprocess.run(["pdflatex", ...])` invocations
(create_form.py lines 901-912). -/
def pdflatexInvocations (texFilename : String) : List (List String) :=
  [["pdflatex", "-interaction=nonstopmode", texFilename],
   ["pdflatex", "-interaction=nonstopmode", texFilename]]

/-- Python `log_content.split("\n")` (single-character separator). -/
def splitLinesAux : List Char → List Char → List String
  | [], acc => [⟨acc.reverse⟩]
  | c :: rest, acc =>
    if c = '\n' then (⟨acc.reverse⟩ : String) :: splitLinesAux rest []
    else splitLinesAux rest (c :: acc)

def splitLines (s : String) : List String := splitLinesAux s.data []

/-- The scan for the first line beginning with `!`: take that line and
the two following (`lines[i : i + 3]`), joined with newlines. -/
def findBangContext : List String → Option String
  | [] => none
  | l :: rest =>
    if leadsWith ['!'] l.data then
      some ("LaTeX Error: " ++ strJoin "\n" ((l :: rest).take 3))
    else findBangContext rest

def defaultCompileError : String := "PDFLaTeX compilation failed - PDF not generated."

/-- Lines 918-931: default message, refined when `"!" in log_content`
and some line starts with `!`. -/
def extractLatexError (logContent : String) : String :=
  if logContent.data.contains '!' then
    match findBangContext (splitLines logContent) with
    | some m => m
    | none => defaultCompileError
  else defaultCompileError

/-- The observable state after both pdflatex runs: whether the PDF
artifact exists, the second run's exit code and stderr, and the log. -/
structure CompileWorld where
  pdfExists : Bool
  returncode : Int
  logExists : Bool
  logContent : String
  stderr : String

/-- Lines 914-937: success is the existence of the PDF file; on failure
the raised message is the log diagnostic followed by the return code and
truncated stderr. -/
def latexCompileResult (w : CompileWorld) (pdfPath : String) : Except String String :=
  if w.pdfExists then .ok pdfPath
  else
    let errorMsg := if w.logExists then extractLatexError w.logContent
                    else defaultCompileError
    .error (errorMsg ++ "\nReturn code: " ++ toString w.returncode
      ++ "\nStderr: " ++ (if w.stderr ≠ "" then w.stderr.take 200 else "None"))

/-! ## Direct-drawing strategy (two-pass pagination)

Modelled from the spec: the direct-drawing strategy (spec §4.3) has no
code under src/ — only the markup strategy is present — so the two-pass
scheme is modelled from the spec's words: one layout algorithm over
atomic blocks with precomputed heights, run once against a discarded
canvas to count pages, then re-run to draw footers using that count. -/

/-- Greedy page breaking: before placing a block, check the remaining
room; break when the block does not fit and the page is non-empty. -/
def paginateAux (pageH : Nat) : List Nat → List Nat → Nat → List (List Nat)
  | [], cur, _ => if cur = [] then [] else [cur.reverse]
  | b :: rest, cur, used =>
    if cur = [] ∨ used + b ≤ pageH then paginateAux pageH rest (b :: cur) (used + b)
    else cur.reverse :: paginateAux pageH rest [b] b

def paginate (pageH : Nat) (blocks : List Nat) : List (List Nat) :=
  paginateAux pageH blocks [] 0

structure RenderedPage where
  content : List Nat
  pageNum : Nat
  totalDeclared : Nat
deriving Repr, DecidableEq

def stampPages (drawFooters : Bool) (declaredTotal : Nat) :
    Nat → List (List Nat) → List RenderedPage
  | _, [] => []
  | i, p :: rest =>
    ⟨p, i, if drawFooters then declaredTotal else 0⟩
      :: stampPages drawFooters declaredTotal (i + 1) rest

/-- One parametric pass of the layout algorithm: the canvas flag only
controls footer drawing, never the layout. -/
def layoutPass (pageH : Nat) (blocks : List Nat) (drawFooters : Bool)
    (declaredTotal : Nat) : List RenderedPage :=
  stampPages drawFooters declaredTotal 1 (paginate pageH blocks)

/-- Pass 1: discarded canvas, only the page count is kept. -/
def dryRunPageCount (pageH : Nat) (blocks : List Nat) : Nat :=
  (layoutPass pageH blocks false 0).length

/-- Pass 2: the same algorithm, now stamping "Page X of Y" with the
Pass-1 count. -/
def finalRender (pageH : Nat) (blocks : List Nat) : List RenderedPage :=
  layoutPass pageH blocks true (dryRunPageCount pageH blocks)

/-! ## TeX group-balance checker (for claim C4)

A scan keeping the open-group depth: a backslash escapes the next
character, an unescaped `{` opens a group, an unescaped `}` closes one
(failing on underflow), and the scan must end at depth 0 with no
dangling escape. -/

/-- The scanner state: `esc = true` right after an unprocessed `\`.  A
dangling escape at the end of input fails the scan. -/
def texScan : Bool → List Char → Nat → Bool
  | true, [], _ => false
  | true, _ :: rest, d => texScan false rest d
  | false, [], d => d == 0
  | false, c :: rest, d =>
    if c = '\\' then texScan true rest d
    else if c = '\x7b' then texScan false rest (d + 1)
    else if c = '\x7d' then
      if d == 0 then false else texScan false rest (d - 1)
    else texScan false rest d

def texBalancedAux (l : List Char) (d : Nat) : Bool := texScan false l d

def texBalanced (s : String) : Bool := texBalancedAux s.data 0

/-- The final image of one input character under the whole replacement
chain. -/
def charImage (c : Char) : List Char := escapeLatexChars [c]

/-- The ten characters `escape_latex` rewrites. -/
def specialChars : List Char :=
  ['\\', '_', '%', '&', '#', '$', '\x7b', '\x7d', '^', '~']

/-- The characters that can follow the leading backslash of a
character image. -/
def tokenSeconds : List Char :=
  ['t', '_', '%', '&', '#', '$', '\x7b', '\x7d', '^', '~']

/-- A character list that the group scanner walks through without
changing the depth, underflowing, or ending mid-escape. -/
def scanNeutral (t : List Char) : Prop :=
  ∀ rest d, texBalancedAux (t ++ rest) d = texBalancedAux rest d

/-- `pat` occurs contiguously inside the string `s`. -/
def hasSubStr (pat s : String) : Prop := ∃ x y : String, s = x ++ pat ++ y

/-- A fragment that is a section heading (starts like `\section*{`). -/
def isSecHead (f : String) : Bool := leadsWith "\\section*\x7b".data f.data

/-- A fragment that is a line-item heading (starts like `\subsection*{`). -/
def isSubHead (f : String) : Bool := leadsWith "\\subsection*\x7b".data f.data

/-- The section headings the spec requires: Roman numerals from the
start index in input order over the upper-cased, escaped names. -/
def specRomanHeadings : Nat → List Sec → List String
  | _, [] => []
  | i, s :: rest =>
    ("\\section*\x7b\\centering " ++ toRoman i ++ ". " ++ escapeLatex s.name.toUpper
        ++ "\x7d\n")
      :: specRomanHeadings (i + 1) rest

/-- The item headings the spec requires: letters `chr(ord('A') + j)` in
input order over the escaped titles. -/
def specLetterHeadings : Nat → List LineItem → List String
  | _, [] => []
  | j, it :: rest =>
    ("\\subsection*\x7b" ++ String.singleton (Char.ofNat ('A'.toNat + j)) ++ ". "
        ++ escapeLatex it.title ++ "\x7d\n")
      :: specLetterHeadings (j + 1) rest

end Report

namespace Report

/-! # Theorems

## Claim C1 — checkbox derivation -/

theorem squareBox_ne_timesBox : squareBox ≠ timesBox := by decide

/-- **C1.** Checkbox derivation is a pure function of
`(inspectionStatus, isDeficient)`: `isDeficient = true` checks only the
D box for every status; otherwise exactly the box matching a status of
`"I"`, `"NI"` or `"NP"` is checked, no box is checked for a null status,
and in every case at most one box is checked. -/
theorem checkbox_derivation_correct :
    (∀ status : Option String,
      getCheckboxBoxes status true = (squareBox, squareBox, squareBox, timesBox))
    ∧ getCheckboxBoxes (some "I") false = (timesBox, squareBox, squareBox, squareBox)
    ∧ getCheckboxBoxes (some "NI") false = (squareBox, timesBox, squareBox, squareBox)
    ∧ getCheckboxBoxes (some "NP") false = (squareBox, squareBox, timesBox, squareBox)
    ∧ getCheckboxBoxes none false = (squareBox, squareBox, squareBox, squareBox)
    ∧ (∀ (status : Option String) (d : Bool), checkedCount status d ≤ 1) := by
  refine ⟨fun status => rfl, by decide, by decide, by decide, by decide, ?_⟩
  intro status d
  cases d with
  | true => simp only [checkedCount, getCheckboxBoxes, if_pos]; decide
  | false =>
    by_cases h1 : status = some "I"
    · simp only [checkedCount, getCheckboxBoxes, h1]; decide
    · by_cases h2 : status = some "NI"
      · simp only [checkedCount, getCheckboxBoxes, h1, h2, if_neg, if_pos,
          Bool.false_eq_true, ite_false, ite_true]
        decide
      · by_cases h3 : status = some "NP"
        · simp only [checkedCount, getCheckboxBoxes, h1, h2, h3, Bool.false_eq_true,
            ite_false, ite_true]
          decide
        · simp only [checkedCount, getCheckboxBoxes, h1, h2, h3, Bool.false_eq_true,
            ite_false, ite_true]
          decide

end Report

namespace Report

/-! ## Claim C4 — escaping produces balanced groups

The ten sequential replaces are shown equal to a per-character
substitution (`charImage`), and every character image is neutral for the
group scanner. -/

theorem replChar_append (c : Char) (r : List Char) (xs ys : List Char) :
    replChar c r (xs ++ ys) = replChar c r xs ++ replChar c r ys := by
  induction xs with
  | nil => rfl
  | cons a rest ih => simp [replChar, ih]

theorem applySteps_append (steps : List (Char × String)) (xs ys : List Char) :
    applySteps steps (xs ++ ys) = applySteps steps xs ++ applySteps steps ys := by
  induction steps generalizing xs ys with
  | nil => rfl
  | cons st rest ih =>
    obtain ⟨c, r⟩ := st
    simp [applySteps, replChar_append, ih]

theorem escapeLatexChars_cons (a : Char) (s : List Char) :
    escapeLatexChars (a :: s) = charImage a ++ escapeLatexChars s := by
  have h : (a :: s) = [a] ++ s := rfl
  rw [escapeLatexChars, h, applySteps_append]
  rfl

theorem escapeLatexChars_eq_join (s : List Char) :
    escapeLatexChars s = (s.map charImage).flatten := by
  induction s with
  | nil => rfl
  | cons a rest ih => rw [escapeLatexChars_cons, ih]; rfl

theorem scanNeutral_append {a b : List Char} (ha : scanNeutral a) (hb : scanNeutral b) :
    scanNeutral (a ++ b) := by
  intro rest d
  rw [List.append_assoc, ha, hb]

theorem charImage_plain (c : Char) (h : c ∉ specialChars) : charImage c = [c] := by
  simp only [specialChars, List.mem_cons, List.mem_singleton, not_or] at h
  obtain ⟨h1, h2, h3, h4, h5, h6, h7, h8, h9, h10⟩ := h
  simp [charImage, escapeLatexChars, escSteps, applySteps, replChar,
    h1, h2, h3, h4, h5, h6, h7, h8, h9, h10]

theorem scanNeutral_plain (c : Char) (h1 : c ≠ '\\') (h2 : c ≠ '\x7b')
    (h3 : c ≠ '\x7d') : scanNeutral [c] := by
  intro rest d
  simp [texBalancedAux, texScan, h1, h2, h3]

theorem charImage_neutral (c : Char) : scanNeutral (charImage c) := by
  by_cases hm : c ∈ specialChars
  · simp only [specialChars, List.mem_cons, List.not_mem_nil, or_false] at hm
    rcases hm with h | h | h | h | h | h | h | h | h | h <;> subst h <;>
      (intro rest d; rfl)
  · rw [charImage_plain c hm]
    simp only [specialChars, List.mem_cons, List.not_mem_nil, or_false, not_or] at hm
    exact scanNeutral_plain c hm.1 hm.2.2.2.2.2.2.1 hm.2.2.2.2.2.2.2.1

theorem escapeLatexChars_neutral (s : List Char) : scanNeutral (escapeLatexChars s) := by
  induction s with
  | nil => intro rest d; rfl
  | cons a rest ih =>
    rw [escapeLatexChars_cons]
    exact scanNeutral_append (charImage_neutral a) ih

/-- **C4.** For every input string the output of `escape_latex` passes
the group scanner: every unescaped `{` is matched by an unescaped `}`,
no group underflows, and no dangling escape remains, so emitting the
escaped string never produces unterminated or unbalanced groups. -/
theorem escape_latex_balanced (s : String) : texBalanced (escapeLatex s) = true := by
  have h := escapeLatexChars_neutral s.data [] 0
  rw [List.append_nil] at h
  exact h.trans rfl

end Report

namespace Report

/-! ## Cache and fetch-stage lemmas (claims C3, C6, C10) -/

theorem cacheGet_insert_self (c : Cache) (u : String) (v : Option String) :
    cacheGet (cacheInsert c u v) u = some v := by
  simp [cacheInsert, cacheGet]

theorem cacheGet_insert_ne (c : Cache) (u w : String) (v : Option String)
    (h : u ≠ w) : cacheGet (cacheInsert c u v) w = cacheGet c w := by
  simp [cacheInsert, cacheGet, h]

/-- The download result is always the url's hashed path or a failure. -/
theorem downloadImageAsync_result (hash : String → String)
    (fetch : String → FetchOutcome) (files : List String) (u : String) :
    (downloadImageAsync hash fetch files u).1 = some (hashedFilepath hash u)
      ∨ (downloadImageAsync hash fetch files u).1 = none := by
  unfold downloadImageAsync
  by_cases hmem : hashedFilepath hash u ∈ files
  · simp [hmem]
  · simp only [hmem, if_false, ite_false]
    cases fetch u <;> simp

/-- A successful download leaves its file on disk. -/
theorem downloadImageAsync_file_present (hash : String → String)
    (fetch : String → FetchOutcome) (files : List String) (u p : String)
    (h : (downloadImageAsync hash fetch files u).1 = some p) :
    p ∈ (downloadImageAsync hash fetch files u).2.2 := by
  unfold downloadImageAsync at h ⊢
  by_cases hmem : hashedFilepath hash u ∈ files
  · simp only [hmem, if_true, ite_true] at h ⊢
    simp only [Option.some.injEq] at h
    exact h ▸ hmem
  · simp only [hmem, if_false, ite_false] at h ⊢
    cases hf : fetch u <;> simp [hf] at h ⊢ <;> simp [h]

/-- Downloads never remove files. -/
theorem downloadImageAsync_files_mono (hash : String → String)
    (fetch : String → FetchOutcome) (files : List String) (u p : String)
    (h : p ∈ files) : p ∈ (downloadImageAsync hash fetch files u).2.2 := by
  unfold downloadImageAsync
  by_cases hmem : hashedFilepath hash u ∈ files
  · simpa [hmem] using h
  · simp only [hmem, if_false, ite_false]
    cases fetch u <;> simp [h]

/-- A url not in the launched list keeps its previous cache binding. -/
theorem downloadImagesBackground_not_mem (hash : String → String)
    (fetch : String → FetchOutcome) (urls : List String)
    (st : Cache × List String) (u : String) (h : u ∉ urls) :
    cacheGet (downloadImagesBackground hash fetch urls st).1 u = cacheGet st.1 u := by
  induction urls generalizing st with
  | nil => rfl
  | cons a rest ih =>
    have hne : a ≠ u := fun hh => h (hh ▸ List.mem_cons_self a rest)
    have hnr : u ∉ rest := fun hh => h (List.mem_cons_of_mem a hh)
    rw [downloadImagesBackground, ih _ hnr]
    exact cacheGet_insert_ne _ _ _ _ hne

/-- Every launched url ends with a cache binding: the hashed local path
or the failure marker. -/
theorem downloadImagesBackground_covers (hash : String → String)
    (fetch : String → FetchOutcome) (urls : List String)
    (st : Cache × List String) (u : String) (h : u ∈ urls) :
    ∃ v, cacheGet (downloadImagesBackground hash fetch urls st).1 u = some v
      ∧ (v = some (hashedFilepath hash u) ∨ v = none) := by
  induction urls generalizing st with
  | nil => exact absurd h (List.not_mem_nil u)
  | cons a rest ih =>
    by_cases hr : u ∈ rest
    · exact ih _ hr
    · have hau : a = u := by
        rcases List.mem_cons.mp h with h1 | h1
        · exact h1.symm
        · exact absurd h1 hr
      subst hau
      rw [downloadImagesBackground,
        downloadImagesBackground_not_mem hash fetch rest _ a hr]
      refine ⟨(downloadImageAsync hash fetch st.2 a).1, cacheGet_insert_self _ _ _, ?_⟩
      exact downloadImageAsync_result hash fetch st.2 a

/-- Cache keys produced by the fetch stage come from the launched list. -/
theorem downloadImagesBackground_keys (hash : String → String)
    (fetch : String → FetchOutcome) (urls : List String)
    (st : Cache × List String) (u : String) (v : Option String)
    (h : cacheGet (downloadImagesBackground hash fetch urls st).1 u = some v) :
    u ∈ urls ∨ cacheGet st.1 u = some v := by
  induction urls generalizing st with
  | nil => exact Or.inr h
  | cons a rest ih =>
    rw [downloadImagesBackground] at h
    rcases ih _ h with h1 | h1
    · exact Or.inl (List.mem_cons_of_mem a h1)
    · by_cases hau : a = u
      · exact Or.inl (hau ▸ List.mem_cons_self a rest)
      · simp only [downloadAndCacheImage] at h1
        rw [cacheGet_insert_ne _ _ _ _ hau] at h1
        exact Or.inr h1

theorem networkCalledUrls_subset (hash : String → String)
    (fetch : String → FetchOutcome) (urls : List String) (files : List String)
    (u : String) (h : u ∈ networkCalledUrls hash fetch urls files) : u ∈ urls := by
  induction urls generalizing files with
  | nil => exact absurd h (List.not_mem_nil u)
  | cons a rest ih =>
    rw [networkCalledUrls] at h
    rcases List.mem_append.mp h with h1 | h1
    · by_cases hc : (downloadImageAsync hash fetch files a).2.1
      · simp only [hc, if_true, ite_true, List.mem_singleton] at h1
        exact h1 ▸ List.mem_cons_self a rest
      · simp [hc] at h1
    · exact List.mem_cons_of_mem a (ih _ h1)

theorem dedupUrls_nodup (l : List String) : (dedupUrls l).Nodup := by
  induction l with
  | nil => exact List.nodup_nil
  | cons a rest ih =>
    rw [dedupUrls]
    by_cases hm : a ∈ dedupUrls rest
    · simpa [hm] using ih
    · simp only [hm, if_false, ite_false]
      exact List.nodup_cons.mpr ⟨hm, ih⟩

theorem mem_dedupUrls (l : List String) : ∀ u, u ∈ dedupUrls l ↔ u ∈ l := by
  induction l with
  | nil => intro u; simp [dedupUrls]
  | cons a rest ih =>
    intro u
    rw [dedupUrls]
    by_cases hm : a ∈ dedupUrls rest
    · simp only [hm, if_true, ite_true, List.mem_cons, ih u]
      constructor
      · exact Or.inr
      · rintro (h | h)
        · exact h ▸ ((ih a).mp hm)
        · exact h
    · simp [hm, List.mem_cons, ih u]

/-- **C3.** The fetch stage is total: it is a function that always
returns, and after it completes every launched url has a cache binding,
holding either the local hashed file path or the failure marker
(individual outcomes — non-200, timeout, decode or network error — only
choose between the two values, never escape the fan-in). -/
theorem fetch_stage_total (hash : String → String) (fetch : String → FetchOutcome)
    (urls : List String) (cache : Cache) (files : List String) (u : String)
    (h : u ∈ urls) :
    ∃ v, cacheGet (downloadImagesBackground hash fetch urls (cache, files)).1 u = some v
      ∧ (v = some (hashedFilepath hash u) ∨ v = none) :=
  downloadImagesBackground_covers hash fetch urls (cache, files) u h

theorem fetch_stage_total_witness :
    ∃ v, cacheGet (downloadImagesBackground (fun _ => "h") (fun _ => .timeout)
        ["http://a/i.jpg"] ([], [])).1 "http://a/i.jpg" = some v
      ∧ (v = some (hashedFilepath (fun _ => "h") "http://a/i.jpg") ∨ v = none) :=
  fetch_stage_total (fun _ => "h") (fun _ => .timeout) ["http://a/i.jpg"] [] []
    "http://a/i.jpg" (List.mem_singleton.mpr rfl)

end Report

namespace Report

/-! ## Claim C6 — idempotent fetching -/

/-- **C6.** Image fetching is idempotent within a run: the collected URL
list is deduplicated; the local file name is a (hash-)function of the
url alone; and a second request for a url whose first request returned a
path performs no network call, changes nothing, and returns the same
path. -/
theorem image_fetch_idempotent :
    (∀ data : InspectionData, (collectAllImageUrls data).Nodup)
    ∧ (∀ (hash : String → String) (fetch : String → FetchOutcome)
        (files : List String) (u p : String),
        (downloadImageAsync hash fetch files u).1 = some p →
        p = hashedFilepath hash u)
    ∧ (∀ (hash : String → String) (fetch : String → FetchOutcome)
        (files : List String) (u p : String),
        (downloadImageAsync hash fetch files u).1 = some p →
        downloadImageAsync hash fetch (downloadImageAsync hash fetch files u).2.2 u
          = (some p, false, (downloadImageAsync hash fetch files u).2.2)) := by
  refine ⟨fun data => dedupUrls_nodup _, ?_, ?_⟩
  · intro hash fetch files u p h
    rcases downloadImageAsync_result hash fetch files u with h1 | h1
    · rw [h] at h1
      exact (Option.some.injEq _ _ ▸ h1)
    · rw [h] at h1
      exact absurd h1 (Option.some_ne_none p)
  · intro hash fetch files u p h
    have hp : p = hashedFilepath hash u := by
      rcases downloadImageAsync_result hash fetch files u with h1 | h1
      · rw [h] at h1; exact (Option.some.injEq _ _ ▸ h1)
      · rw [h] at h1; exact absurd h1 (Option.some_ne_none p)
    have hmem : hashedFilepath hash u ∈ (downloadImageAsync hash fetch files u).2.2 :=
      hp ▸ downloadImageAsync_file_present hash fetch files u p h
    conv_lhs => rw [downloadImageAsync]
    simp only [hmem, if_true, ite_true]
    rw [hp]

theorem image_fetch_idempotent_witness :
    downloadImageAsync (fun _ => "h") (fun _ => .ok)
        (downloadImageAsync (fun _ => "h") (fun _ => .ok) [] "http://a/i.jpg").2.2
        "http://a/i.jpg"
      = (some "latex/images/h.jpg", false,
         (downloadImageAsync (fun _ => "h") (fun _ => .ok) [] "http://a/i.jpg").2.2) :=
  image_fetch_idempotent.2.2 (fun _ => "h") (fun _ => .ok) [] "http://a/i.jpg"
    "latex/images/h.jpg" rfl

end Report

namespace Report

/-! ## Claim C10 — URL collection admits only HTTP(S) references -/

theorem okUrl_eq_some (o : Option String) (u : String) :
    okUrl o = some u ↔ o = some u
      ∧ ((u != "") && (leadsWith "http://".data u.data
          || leadsWith "https://".data u.data)) = true := by
  cases o with
  | none => simp [okUrl]
  | some x =>
    rw [okUrl]
    split_ifs with hc
    · constructor
      · intro h
        have hx : x = u := by injection h
        subst hx
        exact ⟨rfl, hc⟩
      · rintro ⟨h, _⟩
        exact h
    · constructor
      · intro h
        exact absurd h (by simp)
      · rintro ⟨h, hcond⟩
        have hx : x = u := by injection h
        subst hx
        exact absurd hcond hc

theorem mem_candidateUrls (data : InspectionData) (u : String) :
    u ∈ candidateUrls data ↔
      (∃ s ∈ data.sections,
        (∃ m ∈ s.media, m.url = some u)
          ∨ ∃ it ∈ s.lineItems, ∃ c ∈ it.comments, ∃ p ∈ c.photos, p.url = some u)
        ∧ ((u != "") && (leadsWith "http://".data u.data
            || leadsWith "https://".data u.data)) = true := by
  simp only [candidateUrls, List.mem_flatMap, List.mem_append, List.mem_filterMap,
    okUrl_eq_some]
  constructor
  · rintro ⟨s, hs, ⟨m, hm, hurl, hcond⟩ | ⟨it, hit, c, hc, p, hp, hurl, hcond⟩⟩
    · exact ⟨⟨s, hs, Or.inl ⟨m, hm, hurl⟩⟩, hcond⟩
    · exact ⟨⟨s, hs, Or.inr ⟨it, hit, c, hc, p, hp, hurl⟩⟩, hcond⟩
  · rintro ⟨⟨s, hs, ⟨m, hm, hurl⟩ | ⟨it, hit, c, hc, p, hp, hurl⟩⟩, hcond⟩
    · exact ⟨s, hs, Or.inl ⟨m, hm, hurl, hcond⟩⟩
    · exact ⟨s, hs, Or.inr ⟨it, hit, c, hc, p, hp, hurl, hcond⟩⟩

/-- **C10.** The collected URL set holds exactly the deduplicated photo
and section-media urls with an `http://`/`https://` scheme; urls outside
it never get a cache entry and are never requested; and a photo whose
url fails the scheme test contributes nothing to the rendered image
data. -/
theorem url_collection_http_only :
    (∀ (data : InspectionData) (u : String),
      u ∈ collectAllImageUrls data ↔
        (∃ s ∈ data.sections,
          (∃ m ∈ s.media, m.url = some u)
            ∨ ∃ it ∈ s.lineItems, ∃ c ∈ it.comments, ∃ p ∈ c.photos, p.url = some u)
          ∧ ((u != "") && (leadsWith "http://".data u.data
              || leadsWith "https://".data u.data)) = true)
    ∧ (∀ (data : InspectionData) (hash : String → String)
        (fetch : String → FetchOutcome) (files : List String) (u : String)
        (v : Option String),
        cacheGet (downloadImagesBackground hash fetch (collectAllImageUrls data)
          ([], files)).1 u = some v → u ∈ collectAllImageUrls data)
    ∧ (∀ (data : InspectionData) (hash : String → String)
        (fetch : String → FetchOutcome) (files : List String) (u : String),
        u ∈ networkCalledUrls hash fetch (collectAllImageUrls data) files →
        u ∈ collectAllImageUrls data)
    ∧ (∀ (data : InspectionData) (hash : String → String)
        (fetch : String → FetchOutcome) (files : List String)
        (ps1 ps2 : List Photo) (p : Photo) (u : String),
        p.url = some u →
        ((u != "") && (leadsWith "http://".data u.data
            || leadsWith "https://".data u.data)) = false →
        validImageData (downloadImagesBackground hash fetch
            (collectAllImageUrls data) ([], files)).1 (ps1 ++ p :: ps2)
          = validImageData (downloadImagesBackground hash fetch
              (collectAllImageUrls data) ([], files)).1 (ps1 ++ ps2)) := by
  have hmem : ∀ (data : InspectionData) (u : String),
      u ∈ collectAllImageUrls data ↔
        (∃ s ∈ data.sections,
          (∃ m ∈ s.media, m.url = some u)
            ∨ ∃ it ∈ s.lineItems, ∃ c ∈ it.comments, ∃ p ∈ c.photos, p.url = some u)
          ∧ ((u != "") && (leadsWith "http://".data u.data
              || leadsWith "https://".data u.data)) = true := by
    intro data u
    rw [collectAllImageUrls, mem_dedupUrls]
    exact mem_candidateUrls data u
  have hkeys : ∀ (data : InspectionData) (hash : String → String)
      (fetch : String → FetchOutcome) (files : List String) (u : String)
      (v : Option String),
      cacheGet (downloadImagesBackground hash fetch (collectAllImageUrls data)
        ([], files)).1 u = some v → u ∈ collectAllImageUrls data := by
    intro data hash fetch files u v h
    rcases downloadImagesBackground_keys hash fetch _ _ u v h with h1 | h1
    · exact h1
    · exact absurd h1 (by simp [cacheGet])
  refine ⟨hmem, hkeys, ?_, ?_⟩
  · intro data hash fetch files u h
    exact networkCalledUrls_subset hash fetch _ files u h
  · intro data hash fetch files ps1 ps2 p u hp hbad
    have hfp :
        (match p.url with
          | none => none
          | some w =>
            if w = "" then none
            else
              match getCachedImage (downloadImagesBackground hash fetch
                  (collectAllImageUrls data) ([], files)).1 w with
              | some path => some (⟨"images/" ++ osBasename path, p.caption⟩ : ImgData)
              | none => none) = none := by
      rw [hp]
      by_cases hu : u = ""
      · simp [hu]
      · simp only [hu, if_false, ite_false]
        have hg : cacheGet (downloadImagesBackground hash fetch
            (collectAllImageUrls data) ([], files)).1 u = none := by
          cases hgc : cacheGet (downloadImagesBackground hash fetch
              (collectAllImageUrls data) ([], files)).1 u with
          | none => rfl
          | some v =>
            have hin := hkeys data hash fetch files u v hgc
            have hcond := ((hmem data u).mp hin).2
            rw [hcond] at hbad
            exact absurd hbad (by simp)
        rw [getCachedImage, hg]
    simp only [validImageData, List.filterMap_append, List.filterMap_cons, hfp]

theorem url_collection_http_only_witness :
    validImageData (downloadImagesBackground (fun _ => "h") (fun _ => .ok)
        (collectAllImageUrls ⟨[]⟩) ([], [])).1
        ([] ++ (⟨some "ftp://x", ""⟩ : Photo) :: [])
      = validImageData (downloadImagesBackground (fun _ => "h") (fun _ => .ok)
          (collectAllImageUrls ⟨[]⟩) ([], [])).1 ([] ++ []) :=
  url_collection_http_only.2.2.2 ⟨[]⟩ (fun _ => "h") (fun _ => .ok) [] [] []
    ⟨some "ftp://x", ""⟩ "ftp://x" rfl (by decide)

end Report

namespace Report

/-! ## Claim C8 — the markup render driver -/

/-- `findBangContext` finds the first `!`-line and returns it with its
two following lines. -/
theorem findBangContext_spec (lines : List String) (ctx : String)
    (h : findBangContext lines = some ctx) :
    ∃ pre l post, lines = pre ++ l :: post
      ∧ (∀ l' ∈ pre, leadsWith ['!'] l'.data = false)
      ∧ leadsWith ['!'] l.data = true
      ∧ ctx = "LaTeX Error: " ++ strJoin "\n" ((l :: post).take 3) := by
  induction lines with
  | nil => exact absurd h (by simp [findBangContext])
  | cons l rest ih =>
    rw [findBangContext] at h
    by_cases hb : leadsWith ['!'] l.data = true
    · rw [if_pos hb] at h
      refine ⟨[], l, rest, rfl, by simp, hb, ?_⟩
      injection h with h
      exact h.symm
    · rw [if_neg hb] at h
      obtain ⟨pre, l', post, hsplit, hpre, hl', hctx⟩ := ih h
      refine ⟨l :: pre, l', post, by rw [hsplit, List.cons_append], ?_, hl', hctx⟩
      intro x hx
      rcases List.mem_cons.mp hx with hx | hx
      · subst hx
        exact Bool.not_eq_true _ ▸ hb
      · exact hpre x hx

/-- **C8.** The markup render driver invokes the external compiler
exactly twice; it fails exactly when the output artifact is absent,
whatever the exit code; and when it fails with a log whose first
`!`-line exists, the surfaced diagnostic contains that line joined with
its following context window. -/
theorem markup_render_driver :
    (∀ tex : String, (pdflatexInvocations tex).length = 2)
    ∧ (∀ (w : CompileWorld) (pdfPath : String),
        (latexCompileResult w pdfPath).isOk = w.pdfExists)
    ∧ (∀ (w : CompileWorld) (pdfPath ctx : String),
        w.pdfExists = false → w.logExists = true →
        w.logContent.data.contains '!' = true →
        findBangContext (splitLines w.logContent) = some ctx →
        ∃ msg, latexCompileResult w pdfPath = .error msg ∧ hasSub ctx.data msg.data) := by
  refine ⟨fun tex => rfl, ?_, ?_⟩
  · intro w pdfPath
    cases hpdf : w.pdfExists with
    | true => simp [latexCompileResult, hpdf, Except.isOk, Except.toBool]
    | false => simp [latexCompileResult, hpdf, Except.isOk, Except.toBool]
  · intro w pdfPath ctx hpdf hlog hbang hfind
    have hextract : extractLatexError w.logContent = ctx := by
      rw [extractLatexError, if_pos hbang, hfind]
    refine ⟨ctx ++ "\nReturn code: " ++ toString w.returncode ++ "\nStderr: "
        ++ (if w.stderr ≠ "" then w.stderr.take 200 else "None"), ?_, ?_⟩
    · simp only [latexCompileResult, hpdf, hlog, hextract, Bool.false_eq_true,
        if_false, if_true, ite_false, ite_true]
    · refine ⟨[], ("\nReturn code: " ++ toString w.returncode ++ "\nStderr: "
        ++ (if w.stderr ≠ "" then w.stderr.take 200 else "None")).data, ?_⟩
      simp [String.data_append]

theorem markup_render_driver_witness :
    ∃ msg,
      latexCompileResult ⟨false, 1, true, "ok line\n! Undefined control sequence.\nl.5\nmore", ""⟩
          "latex/final_report.pdf" = .error msg
        ∧ hasSub ("LaTeX Error: " ++ strJoin "\n"
            ["! Undefined control sequence.", "l.5", "more"]).data msg.data :=
  markup_render_driver.2.2
    ⟨false, 1, true, "ok line\n! Undefined control sequence.\nl.5\nmore", ""⟩
    "latex/final_report.pdf"
    ("LaTeX Error: " ++ strJoin "\n" ["! Undefined control sequence.", "l.5", "more"])
    rfl rfl (by decide) (by decide)

end Report

namespace Report

/-! ## Claim C5 — two-pass direct drawing (spec-modelled, §4.3) -/

theorem stampPages_totalDeclared (total i : Nat) (pages : List (List Nat))
    (pg : RenderedPage) (h : pg ∈ stampPages true total i pages) :
    pg.totalDeclared = total := by
  induction pages generalizing i with
  | nil => exact absurd h (List.not_mem_nil pg)
  | cons p rest ih =>
    rw [stampPages] at h
    rcases List.mem_cons.mp h with h1 | h1
    · rw [h1]; rfl
    · exact ih _ h1

theorem stampPages_map_content (f : Bool) (total i : Nat) (pages : List (List Nat)) :
    (stampPages f total i pages).map RenderedPage.content = pages := by
  induction pages generalizing i with
  | nil => rfl
  | cons p rest ih => rw [stampPages, List.map_cons, ih]

theorem stampPages_length (f : Bool) (total i : Nat) (pages : List (List Nat)) :
    (stampPages f total i pages).length = pages.length := by
  induction pages generalizing i with
  | nil => rfl
  | cons p rest ih => rw [stampPages, List.length_cons, ih, List.length_cons]

/-- **C5.** (Spec-modelled.)  The dry-run pass and the final pass run the
identical layout algorithm — they produce the same page contents and the
same number of pages — and the total page count declared in every footer
of the final pass equals the page count produced by the dry run. -/
theorem two_pass_page_count (pageH : Nat) (blocks : List Nat) :
    (∀ pg ∈ finalRender pageH blocks, pg.totalDeclared = dryRunPageCount pageH blocks)
    ∧ (finalRender pageH blocks).map RenderedPage.content
        = (layoutPass pageH blocks false 0).map RenderedPage.content
    ∧ (finalRender pageH blocks).length = dryRunPageCount pageH blocks := by
  refine ⟨?_, ?_, ?_⟩
  · intro pg h
    exact stampPages_totalDeclared _ _ _ pg h
  · rw [finalRender, layoutPass, layoutPass, stampPages_map_content,
      stampPages_map_content]
  · rw [finalRender, layoutPass, stampPages_length, dryRunPageCount, layoutPass,
      stampPages_length]

theorem two_pass_page_count_witness :
    (⟨[4, 5], 1, 2⟩ : RenderedPage) ∈ finalRender 10 [4, 5, 6]
    ∧ (⟨[4, 5], 1, 2⟩ : RenderedPage).totalDeclared = dryRunPageCount 10 [4, 5, 6] :=
  ⟨by decide, (two_pass_page_count 10 [4, 5, 6]).1 ⟨[4, 5], 1, 2⟩ (by decide)⟩

end Report

namespace Report

/-! ## Shared head-character lemmas for the body fragments

Used to tell the fragment kinds of the body list apart: a fragment built
from escaped user text never starts like a heading, a table directive, a
checkbox glyph, or an image row. -/

theorem charImage_special_cases (a : Char) (h : a ∈ specialChars) :
    ∃ c2 u, charImage a = '\\' :: c2 :: u ∧ c2 ∈ tokenSeconds := by
  simp only [specialChars, List.mem_cons, List.not_mem_nil, or_false] at h
  rcases h with h | h | h | h | h | h | h | h | h | h <;> subst h
  · exact ⟨'t', "extbackslash\\\x7b\\\x7d".data, by decide, by decide⟩
  · exact ⟨'_', [], by decide, by decide⟩
  · exact ⟨'%', [], by decide, by decide⟩
  · exact ⟨'&', [], by decide, by decide⟩
  · exact ⟨'#', [], by decide, by decide⟩
  · exact ⟨'$', [], by decide, by decide⟩
  · exact ⟨'\x7b', [], by decide, by decide⟩
  · exact ⟨'\x7d', [], by decide, by decide⟩
  · exact ⟨'^', "\x7b\x7d".data, by decide, by decide⟩
  · exact ⟨'~', "\x7b\x7d".data, by decide, by decide⟩

theorem escape_head2 (s : List Char) :
    escapeLatexChars s = []
    ∨ (∃ a s', s = a :: s' ∧ a ∉ specialChars
        ∧ escapeLatexChars s = a :: escapeLatexChars s')
    ∨ (∃ c2 u, escapeLatexChars s = '\\' :: c2 :: u ∧ c2 ∈ tokenSeconds) := by
  cases s with
  | nil => exact Or.inl rfl
  | cons a s' =>
    by_cases hm : a ∈ specialChars
    · obtain ⟨c2, u, hci, hc2⟩ := charImage_special_cases a hm
      refine Or.inr (Or.inr ⟨c2, u ++ escapeLatexChars s', ?_, hc2⟩)
      rw [escapeLatexChars_cons, hci]
      rfl
    · refine Or.inr (Or.inl ⟨a, s', rfl, hm, ?_⟩)
      rw [escapeLatexChars_cons, charImage_plain a hm]
      rfl

/-- A single-character pattern drawn from the escaped set never leads an
escaped text followed by a tail it does not lead. -/
theorem escape_append_not_leadsWith_special (c : Char) (hc : c ∈ specialChars)
    (hcbs : c ≠ '\\') (s t : List Char) (ht : leadsWith [c] t = false) :
    leadsWith [c] (escapeLatexChars s ++ t) = false := by
  rcases escape_head2 s with h | ⟨a, s', hs, ham, he⟩ | ⟨c2, u, he, hc2⟩
  · rw [h]
    simpa using ht
  · have hne : c ≠ a := fun hh => ham (hh ▸ hc)
    rw [he]
    simp [leadsWith, hne]
  · rw [he]
    simp [leadsWith, hcbs]

/-- A backslash-then-`c` pattern with `c` outside the token second
characters never leads an escaped text followed by a tail it does not
lead. -/
theorem escape_append_not_leadsWith_bs (c : Char) (hc : c ∉ tokenSeconds)
    (s t : List Char) (ht : leadsWith ['\\', c] t = false) :
    leadsWith ['\\', c] (escapeLatexChars s ++ t) = false := by
  rcases escape_head2 s with h | ⟨a, s', hs, ham, he⟩ | ⟨c2, u, he, hc2⟩
  · rw [h]
    simpa using ht
  · have hne : ('\\' : Char) ≠ a :=
      fun hh => ham (hh ▸ (by decide : ('\\' : Char) ∈ specialChars))
    rw [he]
    simp [leadsWith, hne]
  · have hne : c ≠ c2 := fun hh => hc (hh ▸ hc2)
    rw [he]
    simp [leadsWith, hne]

theorem boxes_first (status : Option String) (d : Bool) :
    (getCheckboxBoxes status d).1 = squareBox ∨ (getCheckboxBoxes status d).1 = timesBox := by
  rw [getCheckboxBoxes]
  split_ifs <;> first
    | exact Or.inl rfl
    | exact Or.inr rfl

/-- Every checkbox string starts with the `$` of its first glyph. -/
theorem getCheckboxes_prefix (status : Option String) (d : Bool) :
    ∃ r : String, getCheckboxes status d = "$" ++ r := by
  rcases boxes_first status d with h | h
  · refine ⟨"\\square$" ++ (" & " ++ (getCheckboxBoxes status d).2.1 ++ " & "
      ++ (getCheckboxBoxes status d).2.2.1 ++ " & " ++ (getCheckboxBoxes status d).2.2.2), ?_⟩
    rw [getCheckboxes]
    show (getCheckboxBoxes status d).1 ++ " & " ++ _ ++ " & " ++ _ ++ " & " ++ _ = _
    rw [h]
    have hsq : squareBox = "$" ++ "\\square$" := by decide
    rw [hsq]
    simp only [String.append_assoc]
  · refine ⟨"\\boxtimes$" ++ (" & " ++ (getCheckboxBoxes status d).2.1 ++ " & "
      ++ (getCheckboxBoxes status d).2.2.1 ++ " & " ++ (getCheckboxBoxes status d).2.2.2), ?_⟩
    rw [getCheckboxes]
    show (getCheckboxBoxes status d).1 ++ " & " ++ _ ++ " & " ++ _ ++ " & " ++ _ = _
    rw [h]
    have hbx : timesBox = "$" ++ "\\boxtimes$" := by decide
    rw [hbx]
    simp only [String.append_assoc]

/-- The head character of any string extending a checkbox string is `$`. -/
theorem getCheckboxes_append_data (status : Option String) (d : Bool) (x : String) :
    ∃ u, (getCheckboxes status d ++ x).data = '$' :: u := by
  obtain ⟨r, hr⟩ := getCheckboxes_prefix status d
  refine ⟨(r ++ x).data, ?_⟩
  rw [hr, String.append_assoc, String.data_append]
  rfl

end Report

namespace Report

/-! ## Claim C7 — image block layout -/

theorem data_head_append (lit x : String) (c0 : Char) (u0 : List Char)
    (h : lit.data = c0 :: u0) : (lit ++ x).data = c0 :: (u0 ++ x.data) := by
  rw [String.data_append, h]
  rfl

theorem not_leadsWith_single (c0 c1 : Char) (u : List Char) (hne : c0 ≠ c1) :
    leadsWith [c0] (c1 :: u) = false := by
  simp [leadsWith, hne]

theorem labelRow_not_amp (status : Option String) (d : Bool) (x y : String) :
    leadsWith ['&'] (getCheckboxes status d ++ x ++ y).data = false := by
  obtain ⟨r, hr⟩ := getCheckboxes_prefix status d
  rw [hr, String.append_assoc, String.append_assoc,
    data_head_append _ _ '$' [] (by decide)]
  exact not_leadsWith_single _ _ _ (by decide)

theorem imageRow_amp (valid : List ImgData) :
    leadsWith ['&'] (imageRow valid).data = true := by
  rw [imageRow, String.append_assoc,
    data_head_append _ _ '&' (" & & & \\parbox\x7b\\linewidth\x7d\x7b\\centering ".data)
      (by decide)]
  simp [leadsWith]

theorem valueRow_not_amp (v : String) :
    leadsWith ['&'] (("\\multicolumn\x7b4\x7d\x7bc\x7d\x7b\x7d & " ++ escapeLatex v
      ++ " \\\\[0.5em]").data) = false := by
  rw [String.append_assoc,
    data_head_append _ _ '\\' ("multicolumn\x7b4\x7d\x7bc\x7d\x7b\x7d & ".data)
      (by decide)]
  exact not_leadsWith_single _ _ _ (by decide)

theorem append3_head (a b c' e : String) (c1 : Char) (u : List Char)
    (h : a.data = c1 :: u) :
    (a ++ b ++ c' ++ e).data = c1 :: (u ++ (b.data ++ (c'.data ++ e.data))) := by
  rw [String.append_assoc, String.append_assoc, String.data_append, h,
    String.data_append, String.data_append]
  rfl

theorem cb_data_cons (status : Option String) (d : Bool) :
    ∃ r : String, (getCheckboxes status d).data = '$' :: r.data := by
  obtain ⟨r, hr⟩ := getCheckboxes_prefix status d
  refine ⟨r, ?_⟩
  rw [hr, String.data_append]
  rfl

/-- The fragments appended for one comment, classified by the `&` head:
only the image row starts with `&`. -/
theorem commentRows_amp_count (cache : Cache) (status : Option String) (d : Bool)
    (k : Nat) (c : Comment) :
    (commentRows cache (getCheckboxes status d) k c).countP
        (fun f => leadsWith ['&'] f.data)
      = if c.photos ≠ [] ∧ validImageData cache c.photos ≠ [] then 1 else 0 := by
  have hlabel : leadsWith ['&'] ((getCheckboxes status d ++ " & "
      ++ ("\\textbf\x7b" ++ escapeLatex (toString k ++ ". " ++ c.label) ++ "\x7d")
      ++ " \\\\")).data = false := by
    obtain ⟨r, hr⟩ := cb_data_cons status d
    rw [append3_head _ _ _ _ '$' r.data hr]
    exact not_leadsWith_single _ _ _ (by decide)
  have hvrows : (match c.value with
      | some v => if v ≠ "" then
          ["\\multicolumn\x7b4\x7d\x7bc\x7d\x7b\x7d & " ++ escapeLatex v ++ " \\\\[0.5em]"]
        else []
      | none => ([] : List String)).countP (fun (f : String) => leadsWith ['&'] f.data)
        = 0 := by
    cases c.value with
    | none => rfl
    | some v =>
      by_cases hvv : v ≠ ""
      · simp [hvv, List.countP_cons, leadsWith]
      · simp [hvv]
  have himg : (if c.photos = [] then ([] : List String)
      else if validImageData cache c.photos = [] then []
      else [imageRow (validImageData cache c.photos)]).countP
        (fun (f : String) => leadsWith ['&'] f.data)
      = if c.photos ≠ [] ∧ validImageData cache c.photos ≠ [] then 1 else 0 := by
    by_cases hp : c.photos = []
    · simp [hp]
    · by_cases hvd : validImageData cache c.photos = []
      · simp [hp, hvd]
      · simp [List.countP_cons, imageRow_amp, hp, hvd]
  simp only [commentRows]
  rw [List.cons_append, List.countP_cons, List.countP_append]
  simp only [hlabel, himg, hvrows, Bool.false_eq_true, if_false, ite_false,
    Nat.add_zero]

end Report

namespace Report

theorem validImageData_photos_ne (cache : Cache) (c : Comment)
    (h : validImageData cache c.photos ≠ []) : c.photos ≠ [] := by
  intro hc
  rw [hc] at h
  exact h rfl

/-- When at least one photo resolves, the image row sits directly after
the label row. -/
theorem commentRows_get1 (cache : Cache) (status : Option String) (d : Bool)
    (k : Nat) (c : Comment) (h : validImageData cache c.photos ≠ []) :
    (commentRows cache (getCheckboxes status d) k c).get? 1
      = some (imageRow (validImageData cache c.photos)) := by
  have hp : c.photos ≠ [] := validImageData_photos_ne cache c h
  simp only [commentRows]
  rw [if_neg hp, if_neg h]
  rfl

/-- An unresolved photo is dropped without a trace from
`valid_image_data`. -/
theorem validImageData_omit (cache : Cache) (ps1 ps2 : List Photo) (p : Photo)
    (h : ∀ u, p.url = some u → u = "" ∨ getCachedImage cache u = none) :
    validImageData cache (ps1 ++ p :: ps2) = validImageData cache (ps1 ++ ps2) := by
  have hnone : (match p.url with
      | none => none
      | some u =>
        if u = "" then none
        else
          match getCachedImage cache u with
          | some path => some (⟨"images/" ++ osBasename path, p.caption⟩ : ImgData)
          | none => none) = none := by
    cases hu : p.url with
    | none => rfl
    | some u =>
      rcases h u hu with h1 | h1
      · simp [h1]
      · by_cases hu0 : u = "" <;> simp [hu0, h1]
  rw [validImageData, validImageData, List.filterMap_append, List.filterMap_append,
    List.filterMap_cons, hnone]

theorem imageSize_ge4 (n : Nat) (h : 4 ≤ n) : imageSize n = ("1.0in", "1.5in") := by
  rw [imageSize, if_neg, if_neg, if_neg] <;> omega

theorem strJoin_cons_decompose (sep x : String) (xs : List String) :
    ∃ R : String, strJoin sep (x :: xs) = x ++ R := by
  cases xs with
  | nil =>
    refine ⟨"", ?_⟩
    rw [strJoin]
    exact (String.append_empty x).symm
  | cons y ys =>
    refine ⟨sep ++ strJoin sep (y :: ys), ?_⟩
    rw [show strJoin sep (x :: y :: ys) = x ++ sep ++ strJoin sep (y :: ys) from rfl,
      String.append_assoc]

/-- Every emitted image carries `width`, `height` and `keepaspectratio`
from the chosen tier. -/
theorem imgWithCaption_decompose (w h : String) (dd : ImgData) :
    ∃ Z : String, imgWithCaption w h dd
      = ("\\begin\x7bminipage\x7d[t]\x7b" ++ w ++ "\x7d" ++ "\n" ++ indent32
          ++ "\\centering" ++ "\n" ++ indent32)
        ++ ("\\includegraphics[width=" ++ w ++ ", height=" ++ h
            ++ ", keepaspectratio]")
        ++ Z := by
  simp only [imgWithCaption]
  by_cases hcap : dd.caption ≠ ""
  · refine ⟨"\x7b" ++ dd.path ++ "\x7d" ++ "\n" ++ indent32
      ++ "\\vspace\x7b0.1cm\x7d \\\\" ++ "\n" ++ indent32 ++ "\x7b\\small\\itshape "
      ++ escapeLatex dd.caption ++ "\x7d" ++ "\n" ++ indent32 ++ "\\end\x7bminipage\x7d", ?_⟩
    rw [if_pos hcap]
    rw [show (", keepaspectratio]\x7b" : String) = ", keepaspectratio]" ++ "\x7b" from by decide]
    simp only [String.append_assoc]
  · refine ⟨"\x7b" ++ dd.path ++ "\x7d" ++ "\n" ++ indent32
      ++ "\\end\x7bminipage\x7d", ?_⟩
    rw [if_neg hcap]
    rw [show (", keepaspectratio]\x7b" : String) = ", keepaspectratio]" ++ "\x7b" from by decide]
    simp only [String.append_assoc]

theorem imageRow_keepaspect (valid : List ImgData) (hv : valid ≠ []) :
    hasSubStr ("\\includegraphics[width=" ++ (imageSize valid.length).1
      ++ ", height=" ++ (imageSize valid.length).2 ++ ", keepaspectratio]")
      (imageRow valid) := by
  obtain ⟨dd, rest, rfl⟩ := List.exists_cons_of_ne_nil hv
  simp only [imageRow, List.map_cons]
  obtain ⟨R, hR⟩ := strJoin_cons_decompose " \\hspace\x7b0.2cm\x7d "
    (imgWithCaption (imageSize (dd :: rest).length).1 (imageSize (dd :: rest).length).2 dd)
    (rest.map (imgWithCaption (imageSize (dd :: rest).length).1
      (imageSize (dd :: rest).length).2))
  obtain ⟨Z, hZ⟩ := imgWithCaption_decompose (imageSize (dd :: rest).length).1
    (imageSize (dd :: rest).length).2 dd
  refine ⟨"& & & & \\parbox\x7b\\linewidth\x7d\x7b\\centering "
      ++ ("\\begin\x7bminipage\x7d[t]\x7b" ++ (imageSize (dd :: rest).length).1 ++ "\x7d"
        ++ "\n" ++ indent32 ++ "\\centering" ++ "\n" ++ indent32),
    Z ++ R ++ "\x7d \\\\[0.3em]", ?_⟩
  rw [hR, hZ]
  simp only [String.append_assoc]

end Report

namespace Report

/-- **C7.** For every comment in the markup strategy: the emitted rows
contain an image row (the unique `&`-headed fragment) exactly when the
comment has photos and at least one resolves in the cache — so zero
photos, or none resolving, emit no image block; the image row follows
the label row directly; an unresolved photo is silently dropped from
`valid_image_data`; and the per-image width/height pair is the fixed
tier table keyed by the resolved count (1 → 3.0in/2.5in, 2 →
1.8in/2.0in, 3 → 1.3in/1.8in, ≥ 4 → 1.0in/1.5in), each image emitted
with `keepaspectratio` under the tier's height cap. -/
theorem comment_image_block :
    (∀ (cache : Cache) (status : Option String) (d : Bool) (k : Nat) (c : Comment),
      (commentRows cache (getCheckboxes status d) k c).countP
          (fun f => leadsWith ['&'] f.data)
        = if c.photos ≠ [] ∧ validImageData cache c.photos ≠ [] then 1 else 0)
    ∧ (∀ (cache : Cache) (c : Comment), c.photos = [] →
        validImageData cache c.photos = [])
    ∧ (∀ (cache : Cache) (status : Option String) (d : Bool) (k : Nat) (c : Comment),
        validImageData cache c.photos ≠ [] →
        (commentRows cache (getCheckboxes status d) k c).get? 1
          = some (imageRow (validImageData cache c.photos)))
    ∧ (∀ (cache : Cache) (ps1 ps2 : List Photo) (p : Photo),
        (∀ u, p.url = some u → u = "" ∨ getCachedImage cache u = none) →
        validImageData cache (ps1 ++ p :: ps2) = validImageData cache (ps1 ++ ps2))
    ∧ (imageSize 1 = ("3.0in", "2.5in") ∧ imageSize 2 = ("1.8in", "2.0in")
        ∧ imageSize 3 = ("1.3in", "1.8in")
        ∧ ∀ n, 4 ≤ n → imageSize n = ("1.0in", "1.5in"))
    ∧ (∀ valid : List ImgData, valid ≠ [] →
        hasSubStr ("\\includegraphics[width=" ++ (imageSize valid.length).1
          ++ ", height=" ++ (imageSize valid.length).2 ++ ", keepaspectratio]")
          (imageRow valid)) := by
  refine ⟨commentRows_amp_count, ?_, commentRows_get1, validImageData_omit,
    ⟨by decide, by decide, by decide, imageSize_ge4⟩, imageRow_keepaspect⟩
  intro cache c h
  rw [h]
  rfl

theorem comment_image_block_witness :
    ((commentRows [("http://x/a.jpg", some "latex/images/h.jpg")]
        (getCheckboxes (some "I") false) 1
        ⟨"lbl", none, [⟨some "http://x/a.jpg", ""⟩]⟩).get? 1
      = some (imageRow (validImageData [("http://x/a.jpg", some "latex/images/h.jpg")]
          [⟨some "http://x/a.jpg", ""⟩])))
    ∧ imageSize 7 = ("1.0in", "1.5in") :=
  ⟨comment_image_block.2.2.1 [("http://x/a.jpg", some "latex/images/h.jpg")]
      (some "I") false 1 ⟨"lbl", none, [⟨some "http://x/a.jpg", ""⟩]⟩ (by decide),
   comment_image_block.2.2.2.2.1.2.2.2 7 (by omega)⟩

end Report

namespace Report

/-! ## Generic `leadsWith` tools and fragment-head classification
(claims C2 and C9) -/

theorem append2_data (a b c' : String) :
    (a ++ b ++ c').data = a.data ++ (b.data ++ c'.data) := by
  rw [String.append_assoc, String.data_append, String.data_append]

theorem append3_data (a b c' e : String) :
    (a ++ b ++ c' ++ e).data = a.data ++ (b.data ++ (c'.data ++ e.data)) := by
  rw [String.append_assoc, String.append_assoc, String.data_append,
    String.data_append, String.data_append]

theorem append4_data (a b c' e f : String) :
    (a ++ b ++ c' ++ e ++ f).data
      = a.data ++ (b.data ++ (c'.data ++ (e.data ++ f.data))) := by
  rw [String.append_assoc, String.append_assoc, String.append_assoc,
    String.data_append, String.data_append, String.data_append, String.data_append]

theorem not_leadsWith_of_head (c1 c2 : Char) (ps u : List Char) (hne : c1 ≠ c2) :
    leadsWith (c1 :: ps) (c2 :: u) = false := by
  simp [leadsWith, hne]

theorem not_leadsWith_of_second (c1 c2 d1 d2 : Char) (ps u : List Char)
    (hne : c2 ≠ d2) : leadsWith (c1 :: c2 :: ps) (d1 :: d2 :: u) = false := by
  simp [leadsWith, hne]

theorem leadsWith_append_of_le (p : List Char) :
    ∀ (a b : List Char), p.length ≤ a.length → leadsWith p (a ++ b) = leadsWith p a := by
  induction p with
  | nil => intro a b _; rfl
  | cons x ps ih =>
    intro a b hlen
    cases a with
    | nil => simp at hlen
    | cons y ys =>
      simp only [List.cons_append, leadsWith, List.append_eq]
      rw [ih ys b (by simpa using hlen)]

theorem leadsWith_long_false (p1 p2 l : List Char)
    (h : leadsWith p1 l = false) : leadsWith (p1 ++ p2) l = false := by
  induction p1 generalizing l with
  | nil => simp [leadsWith] at h
  | cons x ps ih =>
    cases l with
    | nil => rfl
    | cons y ys =>
      simp only [List.cons_append, leadsWith, List.append_eq] at h ⊢
      rcases Bool.and_eq_false_iff.mp h with h1 | h1
      · rw [h1]
        rfl
      · rw [ih ys h1]
        simp

end Report

namespace Report

theorem not_heads_of_bs_s_false (f : String)
    (h : leadsWith ['\\', 's'] f.data = false) :
    isSecHead f = false ∧ isSubHead f = false := by
  constructor
  · rw [isSecHead,
      show ("\\section*\x7b".data) = ['\\', 's'] ++ "ection*\x7b".data from by decide]
    exact leadsWith_long_false _ _ _ h
  · rw [isSubHead,
      show ("\\subsection*\x7b".data) = ['\\', 's'] ++ "ubsection*\x7b".data from by decide]
    exact leadsWith_long_false _ _ _ h

/-- The scenario-2 value fragment neither looks like a heading, a table
directive, nor a checkbox row. -/
theorem valueFrag_classify (v : String) :
    leadsWith ['\\', 's'] (escapeLatex v ++ "\\\\" ++ "\n").data = false
    ∧ leadsWith ['\\', 'b'] (escapeLatex v ++ "\\\\" ++ "\n").data = false
    ∧ leadsWith ['$'] (escapeLatex v ++ "\\\\" ++ "\n").data = false := by
  have hdata : (escapeLatex v ++ "\\\\" ++ "\n").data
      = escapeLatexChars v.data ++ ("\\\\".data ++ "\n".data) := by
    rw [append2_data]
    rfl
  refine ⟨?_, ?_, ?_⟩
  · rw [hdata]
    exact escape_append_not_leadsWith_bs 's' (by decide) _ _ (by decide)
  · rw [hdata]
    exact escape_append_not_leadsWith_bs 'b' (by decide) _ _ (by decide)
  · rw [hdata]
    exact escape_append_not_leadsWith_special '$' (by decide) (by decide) _ _ (by decide)

/-- A checkbox-headed fragment (`$` first) fails every `\`- or
`&`-leading pattern. -/
theorem cbFrag_head (status : Option String) (d : Bool) (x : String) :
    ∃ u, (getCheckboxes status d ++ x).data = '$' :: u := by
  obtain ⟨r, hr⟩ := cb_data_cons status d
  refine ⟨r.data ++ x.data, ?_⟩
  rw [String.data_append, hr]
  rfl

theorem labelRow_head (status : Option String) (d : Bool) (x y z : String) :
    ∃ u, (getCheckboxes status d ++ x ++ y ++ z).data = '$' :: u := by
  obtain ⟨r, hr⟩ := cb_data_cons status d
  exact ⟨r.data ++ (x.data ++ (y.data ++ z.data)), append3_head _ _ _ _ '$' r.data hr⟩

theorem imageRow_head (valid : List ImgData) :
    ∃ u, (imageRow valid).data = '&' :: u := by
  rw [imageRow]
  refine ⟨(" & & & \\parbox\x7b\\linewidth\x7d\x7b\\centering ".data)
    ++ ((strJoin " \\hspace\x7b0.2cm\x7d "
      (valid.map (imgWithCaption (imageSize valid.length).1 (imageSize valid.length).2))).data
      ++ "\x7d \\\\[0.3em]".data), ?_⟩
  rw [append2_data,
    show ("& & & & \\parbox\x7b\\linewidth\x7d\x7b\\centering ".data)
      = '&' :: " & & & \\parbox\x7b\\linewidth\x7d\x7b\\centering ".data from by decide]
  rfl

theorem valueRow_head (v : String) :
    ∃ u, ("\\multicolumn\x7b4\x7d\x7bc\x7d\x7b\x7d & " ++ escapeLatex v
      ++ " \\\\[0.5em]").data = '\\' :: 'm' :: u := by
  refine ⟨("ulticolumn\x7b4\x7d\x7bc\x7d\x7b\x7d & ".data)
    ++ ((escapeLatex v).data ++ " \\\\[0.5em]".data), ?_⟩
  rw [append2_data,
    show ("\\multicolumn\x7b4\x7d\x7bc\x7d\x7b\x7d & ".data)
      = '\\' :: 'm' :: "ulticolumn\x7b4\x7d\x7bc\x7d\x7b\x7d & ".data from by decide]
  rfl

end Report

namespace Report

theorem commentRows_cases (cache : Cache) (status : Option String) (d : Bool)
    (k : Nat) (c : Comment) (f : String)
    (h : f ∈ commentRows cache (getCheckboxes status d) k c) :
    (∃ x y z, f = getCheckboxes status d ++ x ++ y ++ z)
    ∨ (∃ valid, f = imageRow valid)
    ∨ (∃ v, f = "\\multicolumn\x7b4\x7d\x7bc\x7d\x7b\x7d & " ++ escapeLatex v
        ++ " \\\\[0.5em]") := by
  simp only [commentRows] at h
  rcases List.mem_append.mp h with h1 | h1
  · rcases List.mem_cons.mp h1 with h2 | h2
    · exact Or.inl ⟨_, _, _, h2⟩
    · refine Or.inr (Or.inl ?_)
      by_cases hp : c.photos = []
      · rw [if_pos hp] at h2
        cases h2
      · rw [if_neg hp] at h2
        by_cases hv : validImageData cache c.photos = []
        · rw [if_pos hv] at h2
          cases h2
        · rw [if_neg hv] at h2
          rw [List.mem_singleton.mp h2]
          exact ⟨_, rfl⟩
  · refine Or.inr (Or.inr ?_)
    cases hv : c.value with
    | none => simp [hv] at h1
    | some v =>
      simp only [hv] at h1
      by_cases hvv : v ≠ ""
      · rw [if_pos hvv] at h1
        rw [List.mem_singleton.mp h1]
        exact ⟨v, rfl⟩
      · rw [if_neg hvv] at h1
        cases h1

theorem commentsRows_mem (cache : Cache) (cb : String) :
    ∀ (k : Nat) (cs : List Comment) (f : String),
      f ∈ commentsRows cache cb k cs →
      ∃ k' c', c' ∈ cs ∧ f ∈ commentRows cache cb k' c' := by
  intro k cs
  induction cs generalizing k with
  | nil =>
    intro f h
    cases h
  | cons c rest ih =>
    intro f h
    rw [commentsRows] at h
    rcases List.mem_append.mp h with h1 | h1
    · exact ⟨k, c, List.mem_cons_self c rest, h1⟩
    · obtain ⟨k', c', hc', hf⟩ := ih (k + 1) f h1
      exact ⟨k', c', List.mem_cons_of_mem c hc', hf⟩

theorem commentRows_plain (cache : Cache) (status : Option String) (d : Bool)
    (k : Nat) (c : Comment) (f : String)
    (h : f ∈ commentRows cache (getCheckboxes status d) k c) :
    isSecHead f = false ∧ isSubHead f = false := by
  rcases commentRows_cases cache status d k c f h with
    ⟨x, y, z, rfl⟩ | ⟨valid, rfl⟩ | ⟨v, rfl⟩
  · obtain ⟨u, hu⟩ := labelRow_head status d x y z
    refine not_heads_of_bs_s_false _ ?_
    rw [hu]
    exact not_leadsWith_of_head _ _ _ _ (by decide)
  · obtain ⟨u, hu⟩ := imageRow_head valid
    refine not_heads_of_bs_s_false _ ?_
    rw [hu]
    exact not_leadsWith_of_head _ _ _ _ (by decide)
  · obtain ⟨u, hu⟩ := valueRow_head v
    refine not_heads_of_bs_s_false _ ?_
    rw [hu]
    exact not_leadsWith_of_second _ _ _ _ _ _ (by decide)

theorem str_ne_of_head (s t : String) (c1 c2 : Char) (u w : List Char)
    (hs : s.data = c1 :: u) (ht : t.data = c2 :: w) (hne : c1 ≠ c2) : s ≠ t := by
  intro he
  rw [he, ht] at hs
  injection hs with h1 _
  exact hne h1.symm

theorem str_ne_of_second (s t : String) (c1 c2 d2 : Char) (u w : List Char)
    (hs : s.data = c1 :: c2 :: u) (ht : t.data = c1 :: d2 :: w) (hne : c2 ≠ d2) :
    s ≠ t := by
  intro he
  rw [he, ht] at hs
  injection hs with _ h2
  injection h2 with h2 _
  exact hne h2.symm

end Report

namespace Report

/-- Exactly one fragment per comment starts with the checkbox `$`. -/
theorem commentRows_dollar_count (cache : Cache) (status : Option String) (d : Bool)
    (k : Nat) (c : Comment) :
    (commentRows cache (getCheckboxes status d) k c).countP
      (fun f => leadsWith ['$'] f.data) = 1 := by
  have hlabel : leadsWith ['$'] ((getCheckboxes status d ++ " & "
      ++ ("\\textbf\x7b" ++ escapeLatex (toString k ++ ". " ++ c.label) ++ "\x7d")
      ++ " \\\\")).data = true := by
    obtain ⟨u, hu⟩ := labelRow_head status d " & "
      ("\\textbf\x7b" ++ escapeLatex (toString k ++ ". " ++ c.label) ++ "\x7d") " \\\\"
    rw [hu]
    simp [leadsWith]
  have hvrows : (match c.value with
      | some v => if v ≠ "" then
          ["\\multicolumn\x7b4\x7d\x7bc\x7d\x7b\x7d & " ++ escapeLatex v ++ " \\\\[0.5em]"]
        else []
      | none => ([] : List String)).countP (fun (f : String) => leadsWith ['$'] f.data)
        = 0 := by
    cases c.value with
    | none => rfl
    | some v =>
      by_cases hvv : v ≠ ""
      · simp [hvv, List.countP_cons, leadsWith]
      · simp [hvv]
  have himg : (if c.photos = [] then ([] : List String)
      else if validImageData cache c.photos = [] then []
      else [imageRow (validImageData cache c.photos)]).countP
        (fun (f : String) => leadsWith ['$'] f.data) = 0 := by
    by_cases hp : c.photos = []
    · simp [hp]
    · by_cases hvd : validImageData cache c.photos = []
      · simp [hp, hvd]
      · obtain ⟨u, hu⟩ := imageRow_head (validImageData cache c.photos)
        simp only [hp, hvd, if_false, ite_false, List.countP_cons, List.countP_nil, hu,
          not_leadsWith_of_head '$' '&' _ _ (by decide), Bool.false_eq_true]
  simp only [commentRows]
  rw [List.cons_append, List.countP_cons, List.countP_append]
  simp only [hlabel, himg, hvrows, if_true, ite_true]

theorem commentsRows_dollar_count (cache : Cache) (status : Option String) (d : Bool) :
    ∀ (k : Nat) (cs : List Comment),
      (commentsRows cache (getCheckboxes status d) k cs).countP
        (fun f => leadsWith ['$'] f.data) = cs.length := by
  intro k cs
  induction cs generalizing k with
  | nil => rfl
  | cons c rest ih =>
    rw [commentsRows, List.countP_append, commentRows_dollar_count, ih (k + 1)]
    simp [Nat.add_comm]

/-- No comment fragment equals the repeating table header row. -/
theorem commentRows_no_header (cache : Cache) (status : Option String) (d : Bool)
    (k : Nat) (c : Comment) (f : String)
    (h : f ∈ commentRows cache (getCheckboxes status d) k c) : f ≠ ltHeaderRow := by
  have hhead : ltHeaderRow.data = '\\' :: 't' ::
      ("extbf\x7bI\x7d & \\textbf\x7bNI\x7d & \\textbf\x7bNP\x7d & \\textbf\x7bD\x7d & \\textbf\x7bComments\x7d \\\\ \\hline \\endhead".data) := by
    decide
  rcases commentRows_cases cache status d k c f h with
    ⟨x, y, z, rfl⟩ | ⟨valid, rfl⟩ | ⟨v, rfl⟩
  · obtain ⟨u, hu⟩ := labelRow_head status d x y z
    exact str_ne_of_head _ _ '$' '\\' _ _ hu hhead (by decide)
  · obtain ⟨u, hu⟩ := imageRow_head valid
    exact str_ne_of_head _ _ '&' '\\' _ _ hu hhead (by decide)
  · obtain ⟨u, hu⟩ := valueRow_head v
    exact str_ne_of_second _ _ '\\' 'm' 't' _ _ hu hhead (by decide)

end Report

namespace Report

/-- No fragment emitted by the four-way line-item branch looks like a
section or item heading. -/
theorem lineItemFragments_plain (cache : Cache) (item : LineItem) (f : String)
    (h : f ∈ lineItemFragments cache item) :
    isSecHead f = false ∧ isSubHead f = false := by
  rw [lineItemFragments] at h
  split_ifs at h with h1 h2 h3 h4
  · simp only [List.mem_cons, List.not_mem_nil, or_false] at h
    rcases h with rfl | rfl | rfl | rfl
    · exact ⟨by decide, by decide⟩
    · exact ⟨by decide, by decide⟩
    · obtain ⟨u, hu⟩ := cbFrag_head item.inspectionStatus item.isDeficient
        " & No comment \\\\"
      refine not_heads_of_bs_s_false _ ?_
      rw [hu]
      exact not_leadsWith_of_head _ _ _ _ (by decide)
    · exact ⟨by decide, by decide⟩
  · rcases List.mem_append.mp h with h5 | h5
    · obtain ⟨cmt, hcm, hf⟩ := List.mem_filterMap.mp h5
      cases hv : cmt.value with
      | none => simp [hv] at hf
      | some v =>
        simp only [hv] at hf
        by_cases hvv : v ≠ ""
        · rw [if_pos hvv] at hf
          injection hf with hf
          subst hf
          exact not_heads_of_bs_s_false _ (valueFrag_classify v).1
        · rw [if_neg hvv] at hf
          cases hf
    · rw [List.mem_singleton.mp h5]
      exact ⟨by decide, by decide⟩
  · simp only [List.mem_cons, List.not_mem_nil, or_false] at h
    rcases h with rfl | rfl
    · exact ⟨by decide, by decide⟩
    · exact ⟨by decide, by decide⟩
  · rcases List.mem_append.mp h with h5 | h5
    · rcases List.mem_cons.mp h5 with rfl | h6
      · exact ⟨by decide, by decide⟩
      · rcases List.mem_cons.mp h6 with rfl | h7
        · exact ⟨by decide, by decide⟩
        · obtain ⟨k', c', hc', hf⟩ := commentsRows_mem cache _ 1 item.comments f h7
          exact commentRows_plain cache item.inspectionStatus item.isDeficient k' c' f hf
    · rw [List.mem_singleton.mp h5]
      exact ⟨by decide, by decide⟩
  · cases h

end Report

namespace Report

theorem itemHeading_heads (j : Nat) (item : LineItem) :
    isSecHead (itemHeading j item) = false ∧ isSubHead (itemHeading j item) = true := by
  constructor
  · rw [isSecHead, itemHeading, append4_data, leadsWith_append_of_le _ _ _ (by decide)]
    decide
  · rw [isSubHead, itemHeading, append4_data, leadsWith_append_of_le _ _ _ (by decide)]
    decide

theorem sectionHeading_heads (i : Nat) (s : Sec) :
    isSecHead (sectionHeading i s) = true ∧ isSubHead (sectionHeading i s) = false := by
  constructor
  · rw [isSecHead, sectionHeading, append4_data, leadsWith_append_of_le _ _ _ (by decide)]
    decide
  · rw [isSubHead, sectionHeading, append4_data, leadsWith_append_of_le _ _ _ (by decide)]
    decide

theorem filter_eq_nil_of_false (p : String → Bool) (l : List String)
    (h : ∀ a ∈ l, p a = false) : l.filter p = [] := by
  induction l with
  | nil => rfl
  | cons x xs ih =>
    rw [List.filter_cons, h x (List.mem_cons_self x xs)]
    simp only [Bool.false_eq_true, if_false, ite_false]
    exact ih fun a ha => h a (List.mem_cons_of_mem x ha)

theorem lineItemBlock_filter_sub (cache : Cache) (j : Nat) (item : LineItem) :
    (lineItemBlock cache j item).filter isSubHead = [itemHeading j item] := by
  rw [lineItemBlock, List.filter_append, List.filter_cons, (itemHeading_heads j item).2]
  rw [filter_eq_nil_of_false _ _ fun a ha => (lineItemFragments_plain cache item a ha).2]
  rw [show List.filter isSubHead ["\\vspace\x7b1em\x7d"] = [] from by decide]
  rfl

theorem lineItemBlock_filter_sec (cache : Cache) (j : Nat) (item : LineItem) :
    (lineItemBlock cache j item).filter isSecHead = [] := by
  rw [lineItemBlock, List.filter_append, List.filter_cons, (itemHeading_heads j item).1]
  rw [filter_eq_nil_of_false _ _ fun a ha => (lineItemFragments_plain cache item a ha).1]
  rw [show List.filter isSecHead ["\\vspace\x7b1em\x7d"] = [] from by decide]
  rfl

theorem lineItemsBlocks_filter_sub (cache : Cache) :
    ∀ (j : Nat) (items : List LineItem),
      (lineItemsBlocks cache j items).filter isSubHead = specLetterHeadings j items := by
  intro j items
  induction items generalizing j with
  | nil => rfl
  | cons it rest ih =>
    rw [lineItemsBlocks, List.filter_append, lineItemBlock_filter_sub, ih (j + 1),
      specLetterHeadings]
    rfl

theorem lineItemsBlocks_filter_sec (cache : Cache) :
    ∀ (j : Nat) (items : List LineItem),
      (lineItemsBlocks cache j items).filter isSecHead = [] := by
  intro j items
  induction items generalizing j with
  | nil => rfl
  | cons it rest ih =>
    rw [lineItemsBlocks, List.filter_append, lineItemBlock_filter_sec, ih (j + 1)]
    rfl

theorem sectionBlock_filter_sub (cache : Cache) (i : Nat) (s : Sec) :
    (sectionBlock cache i s).filter isSubHead = specLetterHeadings 0 s.lineItems := by
  rw [sectionBlock, List.filter_append, List.filter_cons, (sectionHeading_heads i s).2]
  rw [lineItemsBlocks_filter_sub]
  rw [show List.filter isSubHead ["\\clearpage"] = [] from by decide]
  simp

theorem sectionBlock_filter_sec (cache : Cache) (i : Nat) (s : Sec) :
    (sectionBlock cache i s).filter isSecHead = [sectionHeading i s] := by
  rw [sectionBlock, List.filter_append, List.filter_cons, (sectionHeading_heads i s).1]
  rw [lineItemsBlocks_filter_sec]
  rw [show List.filter isSecHead ["\\clearpage"] = [] from by decide]
  rfl

theorem sectionsBlocks_filter_sec (cache : Cache) :
    ∀ (i : Nat) (secs : List Sec),
      (sectionsBlocks cache i secs).filter isSecHead = specRomanHeadings i secs := by
  intro i secs
  induction secs generalizing i with
  | nil => rfl
  | cons s rest ih =>
    rw [sectionsBlocks, List.filter_append, sectionBlock_filter_sec, ih (i + 1),
      specRomanHeadings]
    rfl

/-- **C9.** The body's section headings are exactly the per-position
headings `\section*{\centering <toRoman (i+1)>. <escaped upper name>}`,
in input order starting from 1; and within every section the item
headings are exactly `\subsection*{<chr(ord A + j)>. <escaped title>}`
for j = 0..M-1 in input order. -/
theorem section_item_numbering :
    (∀ (cache : Cache) (data : InspectionData),
      (sectionsLatexBody cache data).filter isSecHead
        = specRomanHeadings 1 data.sections)
    ∧ (∀ (cache : Cache) (i : Nat) (s : Sec),
      (sectionBlock cache i s).filter isSubHead = specLetterHeadings 0 s.lineItems)
    ∧ (∀ (i : Nat) (secs : List Sec), (specRomanHeadings i secs).length = secs.length)
    ∧ (∀ (j : Nat) (items : List LineItem),
      (specLetterHeadings j items).length = items.length) := by
  refine ⟨fun cache data => sectionsBlocks_filter_sec cache 1 data.sections,
    sectionBlock_filter_sub, ?_, ?_⟩
  · intro i secs
    induction secs generalizing i with
    | nil => rfl
    | cons s rest ih => rw [specRomanHeadings, List.length_cons, ih (i + 1)]; rfl
  · intro j items
    induction items generalizing j with
    | nil => rfl
    | cons it rest ih => rw [specLetterHeadings, List.length_cons, ih (j + 1)]; rfl

end Report

namespace Report

theorem countP_eq_zero_of_false (p : String → Bool) (l : List String)
    (h : ∀ a ∈ l, p a = false) : l.countP p = 0 := by
  induction l with
  | nil => rfl
  | cons x xs ih =>
    rw [List.countP_cons, h x (List.mem_cons_self x xs)]
    simp only [Bool.false_eq_true, if_false, ite_false, Nat.add_zero]
    exact ih fun a ha => h a (List.mem_cons_of_mem x ha)

/-- **C2.** The line-item body branches on (has comments, has status)
exactly as specified: no comments with a status emits the one-row table
with derived checkboxes and the literal "No comment"; comments with a
null status emit each truthy comment value as plain text, with no table
directive and no checkbox-headed fragment; no comments and no status
emit the plain "No comment"; comments with a status emit the multi-row
table holding the header row exactly once and exactly one
checkbox-plus-numbered-label row per comment (image and value rows per
comment are claim C7's subject). -/
theorem line_item_branching (cache : Cache) (item : LineItem) :
    (item.comments = [] → item.inspectionStatus ≠ none →
      lineItemFragments cache item
        = ["\\begin\x7blongtable\x7d\x7bc c c c p\x7b0.65\\textwidth\x7d\x7d",
           ltHeaderRow,
           getCheckboxes item.inspectionStatus item.isDeficient ++ " & No comment \\\\",
           "\\end\x7blongtable\x7d" ++ "\n"])
    ∧ (item.comments ≠ [] → item.inspectionStatus = none →
      lineItemFragments cache item
        = (item.comments.filterMap fun c =>
            match c.value with
            | some v => if v ≠ "" then some (escapeLatex v ++ "\\\\" ++ "\n") else none
            | none => none)
          ++ ["\\vspace\x7b1em\x7d" ++ "\n"]
        ∧ ∀ f ∈ lineItemFragments cache item,
            leadsWith ['\\', 'b'] f.data = false ∧ leadsWith ['$'] f.data = false)
    ∧ (item.comments = [] → item.inspectionStatus = none →
      lineItemFragments cache item
        = ["No comment" ++ "\\\\" ++ "\n", "\\vspace\x7b1em\x7d" ++ "\n"])
    ∧ (item.comments ≠ [] → item.inspectionStatus ≠ none →
      lineItemFragments cache item
        = ("\\begin\x7blongtable\x7d\x7bc c c c " ++ commentCol ++ "\x7d")
          :: ltHeaderRow
          :: commentsRows cache (getCheckboxes item.inspectionStatus item.isDeficient) 1
              item.comments
          ++ ["\\end\x7blongtable\x7d" ++ "\n"]
        ∧ (lineItemFragments cache item).countP (fun f => f == ltHeaderRow) = 1
        ∧ (lineItemFragments cache item).countP (fun f => leadsWith ['$'] f.data)
            = item.comments.length) := by
  refine ⟨?_, ?_, ?_, ?_⟩
  · intro hc hs
    simp only [lineItemFragments]
    rw [if_pos ⟨hc, hs⟩]
  · intro hc hs
    have heq : lineItemFragments cache item
        = (item.comments.filterMap fun c =>
            match c.value with
            | some v => if v ≠ "" then some (escapeLatex v ++ "\\\\" ++ "\n") else none
            | none => none)
          ++ ["\\vspace\x7b1em\x7d" ++ "\n"] := by
      simp only [lineItemFragments]
      rw [if_neg (fun hh => hc hh.1), if_pos ⟨hc, hs⟩]
    refine ⟨heq, ?_⟩
    intro f hf
    rw [heq] at hf
    rcases List.mem_append.mp hf with h5 | h5
    · obtain ⟨cmt, hcm, hfm⟩ := List.mem_filterMap.mp h5
      cases hv : cmt.value with
      | none => simp [hv] at hfm
      | some v =>
        simp only [hv] at hfm
        by_cases hvv : v ≠ ""
        · rw [if_pos hvv] at hfm
          injection hfm with hfm
          subst hfm
          exact ⟨(valueFrag_classify v).2.1, (valueFrag_classify v).2.2⟩
        · rw [if_neg hvv] at hfm
          cases hfm
    · rw [List.mem_singleton.mp h5]
      exact ⟨by decide, by decide⟩
  · intro hc hs
    simp only [lineItemFragments]
    rw [if_neg (fun hh => hh.2 hs), if_neg (fun hh => hh.1 hc), if_pos ⟨hc, hs⟩]
  · intro hc hs
    have heq : lineItemFragments cache item
        = ("\\begin\x7blongtable\x7d\x7bc c c c " ++ commentCol ++ "\x7d")
          :: ltHeaderRow
          :: commentsRows cache (getCheckboxes item.inspectionStatus item.isDeficient) 1
              item.comments
          ++ ["\\end\x7blongtable\x7d" ++ "\n"] := by
      simp only [lineItemFragments]
      rw [if_neg (fun hh => hc hh.1), if_neg (fun hh => hs hh.2),
        if_neg (fun hh => hc hh.1), if_pos hc]
    refine ⟨heq, ?_, ?_⟩
    · rw [heq]
      rw [show (("\\begin\x7blongtable\x7d\x7bc c c c " ++ commentCol ++ "\x7d")
          :: ltHeaderRow
          :: commentsRows cache (getCheckboxes item.inspectionStatus item.isDeficient) 1
              item.comments
          ++ ["\\end\x7blongtable\x7d" ++ "\n"])
        = (("\\begin\x7blongtable\x7d\x7bc c c c " ++ commentCol ++ "\x7d")
          :: ltHeaderRow
          :: commentsRows cache (getCheckboxes item.inspectionStatus item.isDeficient) 1
              item.comments)
          ++ ["\\end\x7blongtable\x7d" ++ "\n"] from rfl]
      rw [List.countP_append, List.countP_cons, List.countP_cons]
      rw [countP_eq_zero_of_false _ _ ?hrows]
      case hrows =>
        intro a ha
        obtain ⟨k', c', hc', hfa⟩ := commentsRows_mem cache _ 1 item.comments a ha
        exact beq_eq_false_iff_ne.mpr
          (commentRows_no_header cache item.inspectionStatus item.isDeficient k' c' a hfa)
      rw [show (("\\begin\x7blongtable\x7d\x7bc c c c " ++ commentCol ++ "\x7d")
          == ltHeaderRow) = false from by decide]
      rw [show (ltHeaderRow == ltHeaderRow) = true from by decide]
      rw [show List.countP (fun f => f == ltHeaderRow) ["\\end\x7blongtable\x7d" ++ "\n"]
          = 0 from by decide]
      simp
    · rw [heq]
      rw [show (("\\begin\x7blongtable\x7d\x7bc c c c " ++ commentCol ++ "\x7d")
          :: ltHeaderRow
          :: commentsRows cache (getCheckboxes item.inspectionStatus item.isDeficient) 1
              item.comments
          ++ ["\\end\x7blongtable\x7d" ++ "\n"])
        = (("\\begin\x7blongtable\x7d\x7bc c c c " ++ commentCol ++ "\x7d")
          :: ltHeaderRow
          :: commentsRows cache (getCheckboxes item.inspectionStatus item.isDeficient) 1
              item.comments)
          ++ ["\\end\x7blongtable\x7d" ++ "\n"] from rfl]
      rw [List.countP_append, List.countP_cons, List.countP_cons,
        commentsRows_dollar_count]
      rw [show leadsWith ['$']
          ("\\begin\x7blongtable\x7d\x7bc c c c " ++ commentCol ++ "\x7d").data
          = false from by decide]
      rw [show leadsWith ['$'] ltHeaderRow.data = false from by decide]
      rw [show List.countP (fun f => leadsWith ['$'] f.data)
          ["\\end\x7blongtable\x7d" ++ "\n"] = 0 from by decide]
      simp

theorem line_item_branching_witness :
    lineItemFragments [] ⟨"T", some "NI", false, []⟩
      = ["\\begin\x7blongtable\x7d\x7bc c c c p\x7b0.65\\textwidth\x7d\x7d",
         ltHeaderRow,
         getCheckboxes (some "NI") false ++ " & No comment \\\\",
         "\\end\x7blongtable\x7d" ++ "\n"] :=
  (line_item_branching [] ⟨"T", some "NI", false, []⟩).1 rfl (by decide)

end Report

namespace Report

/-- The C2 clause "an image row follows when the comment has photos" is
false as stated: with an empty cache, a line item in the
comments-and-status branch whose single comment carries one (unresolved)
photo emits no image row at all. -/
theorem line_item_branching_counterexample :
    (⟨"t", some "I", false,
        [⟨"lbl", none, [⟨some "http://x/a.jpg", ""⟩]⟩]⟩ : LineItem).comments ≠ []
    ∧ (⟨"t", some "I", false,
        [⟨"lbl", none, [⟨some "http://x/a.jpg", ""⟩]⟩]⟩ : LineItem).inspectionStatus ≠ none
    ∧ (⟨"lbl", none, [⟨some "http://x/a.jpg", ""⟩]⟩ : Comment).photos ≠ []
    ∧ (lineItemFragments []
        ⟨"t", some "I", false,
          [⟨"lbl", none, [⟨some "http://x/a.jpg", ""⟩]⟩]⟩).countP
        (fun f => leadsWith ['&'] f.data) = 0 :=
  ⟨by decide, by decide, by decide, by decide⟩

end Report
